import Mathlib

/-!
Shallow embedding of the bookmark-sync server's synchronization core.

The definitions below are translated from the repository's source:
* the database layer (`src/server/src/db/bookmarks.ts`, `src/server/src/db/users.ts`):
  `getSyncVersion`, `incrementSyncVersion`, `getAllBookmarks`, `getBookmarkById`,
  `createBookmark`, `updateBookmark`, `deleteBookmark`, `moveBookmark`,
  `getSyncEventsSince`, `clearAllBookmarks`, `recordSyncEvent`;
* the WebSocket message handlers (`src/server/src/websocket/index.ts`):
  `handleSyncRequest`, `handleBookmarkUpdate`, `handleBookmarkDelete`, `handleBookmarkMove`;
* the REST route handlers (`src/server/src/routes/bookmarks.ts`):
  `restPutBookmark`, `restPatchBookmark`, `restMoveBookmark`, `restDeleteBookmark`,
  `restGetBookmark`.

SQLite tables become Lean lists of rows; `crypto.randomUUID()` and `Date.now()`
become explicit parameters; a thrown `Error` becomes `Except.error` of its message.
JavaScript numbers used as version counters become `Int`.
-/

namespace BookmarkSync

/-- A row of the `bookmarks` table, in the camel-cased shape produced by
`toBookmark` in `db/bookmarks.ts`. -/
structure Bookmark where
  id : String
  userId : String
  parentId : Option String
  title : String
  url : Option String
  favicon : Option String
  dateAdded : Nat
  dateModified : Nat
  isFolder : Bool
  sortOrder : Int
  syncVersion : Int
  isDeleted : Bool
  deletedAt : Option Nat
deriving DecidableEq, Repr

/-- The `BookmarkCreateData` wire shape from `packages/shared`.
`favicon?: string | null` is an optional nullable field. -/
structure BookmarkCreateData where
  parentId : Option String
  title : String
  url : Option String
  isFolder : Bool
  sortOrder : Int
  favicon : Option (Option String) := none
deriving DecidableEq, Repr

/-- The `Partial<Bookmark>` patch read by `updateBookmark`: only the
title/url/favicon/sortOrder fields are consulted; `none` models `undefined`. -/
structure BookmarkPatch where
  title : Option String := none
  url : Option (Option String) := none
  favicon : Option (Option String) := none
  sortOrder : Option Int := none
deriving DecidableEq, Repr

/-- The `type` column of a sync event. -/
inductive EventType where
  | create
  | update
  | delete
  | move
deriving DecidableEq, Repr

/-- The JSON `data` blob stored with a sync event: `{...data, id}` for create,
the patch for update, `{}` for delete, `{parentId, sortOrder}` for move. -/
inductive EventPayload where
  | createData (d : BookmarkCreateData) (id : String)
  | patchData (p : BookmarkPatch)
  | emptyData
  | moveData (parentId : Option String) (sortOrder : Int)
deriving DecidableEq, Repr

/-- A row of the `sync_events` table. -/
structure SyncEventRow where
  id : String
  userId : String
  type : EventType
  bookmarkId : String
  data : EventPayload
  timestamp : Nat
  clientId : String
  syncVersion : Int
deriving DecidableEq, Repr

/-- The `SyncEvent` wire shape returned by `getSyncEventsSince` (the row
without its `user_id` column). -/
structure SyncEvent where
  id : String
  type : EventType
  bookmarkId : String
  data : EventPayload
  timestamp : Nat
  clientId : String
  syncVersion : Int
deriving DecidableEq, Repr

/-- The embedded database: the three tables written by the sync engine.
Rows appear in insertion order. -/
structure DB where
  bookmarks : List Bookmark
  syncEvents : List SyncEventRow
  syncVersions : List (String × Int)
deriving DecidableEq, Repr

/-- Insert `x` into a list sorted by `key`, keeping earlier elements first
among equal keys. -/
def insertSorted (key : α → Int) (x : α) : List α → List α
  | [] => [x]
  | y :: ys => if key x ≤ key y then x :: y :: ys else y :: insertSorted key x ys

/-- Insertion sort by an integer key; models SQL `ORDER BY`. -/
def sortByKey (key : α → Int) : List α → List α
  | [] => []
  | x :: xs => insertSorted key x (sortByKey key xs)

/-- `getSyncVersion` from `db/users.ts`: the user's ledger row, or `0` when the
user has no `sync_versions` row. -/
def getSyncVersion (db : DB) (userId : String) : Int :=
  match db.syncVersions.find? (fun p => p.1 == userId) with
  | some p => p.2
  | none => 0

/-- `incrementSyncVersion` from `db/users.ts`: reads the current ledger value,
writes `current + 1` back (the SQL `UPDATE` touches every row of the user),
and returns the new value. -/
def incrementSyncVersion (db : DB) (userId : String) : Int × DB :=
  let newVersion := getSyncVersion db userId + 1
  (newVersion,
   { db with
      syncVersions :=
        db.syncVersions.map (fun p => if p.1 == userId then (p.1, newVersion) else p) })

/-- `recordSyncEvent` from `db/bookmarks.ts`: appends one row to `sync_events`. -/
def recordSyncEvent (db : DB) (userId : String) (type : EventType) (bookmarkId : String)
    (data : EventPayload) (clientId : String) (syncVersion : Int)
    (eventId : String) (now : Nat) : DB :=
  { db with
      syncEvents :=
        db.syncEvents ++ [⟨eventId, userId, type, bookmarkId, data, now, clientId, syncVersion⟩] }

/-- `getAllBookmarks`: `WHERE user_id = ? AND is_deleted = 0 ORDER BY sort_order`. -/
def getAllBookmarks (db : DB) (userId : String) : List Bookmark :=
  sortByKey (fun b => b.sortOrder) (db.bookmarks.filter (fun b => b.userId == userId && !b.isDeleted))

/-- `getBookmarkById`: `WHERE id = ? AND user_id = ?` — note that it does not
filter on `is_deleted`. -/
def getBookmarkById (db : DB) (id : String) (userId : String) : Option Bookmark :=
  db.bookmarks.find? (fun b => b.id == id && b.userId == userId)

/-- `createBookmark`: inserts a row with `sync_version = 1` (and the schema
defaults `is_deleted = 0`, `deleted_at = NULL`), bumps the ledger, records a
`create` event stamped with the new ledger value, and re-fetches the row.
The fresh `crypto.randomUUID()` values and `Date.now()` are passed in as
`newId`/`eventId`/`now`; inserting a duplicate primary key raises. -/
def createdRow (userId : String) (data : BookmarkCreateData) (newId : String)
    (now : Nat) : Bookmark :=
  { id := newId, userId := userId, parentId := data.parentId, title := data.title,
    url := data.url, favicon := data.favicon.getD none, dateAdded := now,
    dateModified := now, isFolder := data.isFolder, sortOrder := data.sortOrder,
    syncVersion := 1, isDeleted := false, deletedAt := none }

def createBookmark (db : DB) (userId : String) (data : BookmarkCreateData)
    (clientId : String) (newId : String) (now : Nat) (eventId : String) :
    Except String ((Bookmark × Int) × DB) :=
  if db.bookmarks.any (fun b => b.id == newId) then
    .error "UNIQUE constraint failed: bookmarks.id"
  else
    let row : Bookmark := createdRow userId data newId now
    let db1 : DB := { db with bookmarks := db.bookmarks ++ [row] }
    let r := incrementSyncVersion db1 userId
    let db3 := recordSyncEvent r.2 userId .create newId (.createData data newId) clientId r.1
      eventId now
    match getBookmarkById db3 newId userId with
    | some bookmark => .ok ((bookmark, r.1), db3)
    | none => .error "Bookmark not found"

/-- The effect of `updateBookmark`'s SQL `UPDATE` on one row: the patch fields
present, plus `date_modified = now` and `sync_version = sync_version + 1`. -/
def applyPatch (b : Bookmark) (p : BookmarkPatch) (now : Nat) : Bookmark :=
  { b with
      title := p.title.getD b.title
      url := p.url.getD b.url
      favicon := p.favicon.getD b.favicon
      sortOrder := p.sortOrder.getD b.sortOrder
      dateModified := now
      syncVersion := b.syncVersion + 1 }

/-- The row transformation performed by `deleteBookmark`'s soft-delete UPDATE:
note the absence of a `sync_version` bump. -/
def softDeleteRow (b : Bookmark) (now : Nat) : Bookmark :=
  { b with isDeleted := true, deletedAt := some now, dateModified := now }

/-- The row transformation performed by `moveBookmark`'s UPDATE. -/
def moveRow (b : Bookmark) (newParentId : Option String) (newIndex : Int)
    (now : Nat) : Bookmark :=
  { b with parentId := newParentId, sortOrder := newIndex, dateModified := now,
           syncVersion := b.syncVersion + 1 }

/-- Result shape of `updateBookmark`/`moveBookmark`:
`{bookmark, syncVersion} | {conflict: true, serverVersion}`. -/
inductive MutResult where
  | ok (bookmark : Bookmark) (syncVersion : Int)
  | conflict (serverVersion : Bookmark)
deriving DecidableEq, Repr

/-- Result shape of `deleteBookmark`:
`{success: true, syncVersion} | {conflict: true, serverVersion}`. -/
inductive DelResult where
  | ok (syncVersion : Int)
  | conflict (serverVersion : Bookmark)
deriving DecidableEq, Repr

/-- `updateBookmark` from `db/bookmarks.ts`. Throws when the row is absent;
returns the conflict object when the stored `syncVersion` differs from
`expectedVersion`; otherwise patches the row, bumps the ledger, records an
`update` event and re-fetches the row. -/
def updateBookmark (db : DB) (id userId : String) (data : BookmarkPatch)
    (expectedVersion : Int) (clientId : String) (now : Nat) (eventId : String) :
    Except String (MutResult × DB) :=
  match getBookmarkById db id userId with
  | none => .error "Bookmark not found"
  | some existing =>
    if existing.syncVersion ≠ expectedVersion then
      .ok (.conflict existing, db)
    else
      let db1 : DB :=
        { db with
            bookmarks := db.bookmarks.map
              (fun b => if b.id == id && b.userId == userId then applyPatch b data now else b) }
      let r := incrementSyncVersion db1 userId
      let db3 := recordSyncEvent r.2 userId .update id (.patchData data) clientId r.1 eventId now
      match getBookmarkById db3 id userId with
      | some bookmark => .ok (.ok bookmark r.1, db3)
      | none => .error "Bookmark not found"

/-- `deleteBookmark` from `db/bookmarks.ts`: soft delete. Sets `is_deleted`,
`deleted_at`, `date_modified` — and, unlike update/move, does NOT touch the
row's `sync_version`. -/
def deleteBookmark (db : DB) (id userId : String) (expectedVersion : Int)
    (clientId : String) (now : Nat) (eventId : String) :
    Except String (DelResult × DB) :=
  match getBookmarkById db id userId with
  | none => .error "Bookmark not found"
  | some existing =>
    if existing.syncVersion ≠ expectedVersion then
      .ok (.conflict existing, db)
    else
      let db1 : DB :=
        { db with
            bookmarks := db.bookmarks.map
              (fun b => if b.id == id && b.userId == userId then softDeleteRow b now else b) }
      let r := incrementSyncVersion db1 userId
      let db3 := recordSyncEvent r.2 userId .delete id .emptyData clientId r.1 eventId now
      .ok (.ok r.1, db3)

/-- `moveBookmark` from `db/bookmarks.ts`: sets `parent_id`, `sort_order`,
`date_modified` and bumps the row's `sync_version`; same conflict check. -/
def moveBookmark (db : DB) (id userId : String) (newParentId : Option String)
    (newIndex : Int) (expectedVersion : Int) (clientId : String) (now : Nat)
    (eventId : String) : Except String (MutResult × DB) :=
  match getBookmarkById db id userId with
  | none => .error "Bookmark not found"
  | some existing =>
    if existing.syncVersion ≠ expectedVersion then
      .ok (.conflict existing, db)
    else
      let db1 : DB :=
        { db with
            bookmarks := db.bookmarks.map
              (fun b =>
                if b.id == id && b.userId == userId then moveRow b newParentId newIndex now
                else b) }
      let r := incrementSyncVersion db1 userId
      let db3 := recordSyncEvent r.2 userId .move id (.moveData newParentId newIndex) clientId
        r.1 eventId now
      match getBookmarkById db3 id userId with
      | some bookmark => .ok (.ok bookmark r.1, db3)
      | none => .error "Bookmark not found"

/-- Drop the `user_id` column of a `sync_events` row, as the row mapping at the
end of `getSyncEventsSince` does. -/
def rowToSyncEvent (r : SyncEventRow) : SyncEvent :=
  ⟨r.id, r.type, r.bookmarkId, r.data, r.timestamp, r.clientId, r.syncVersion⟩

/-- `getSyncEventsSince`:
`WHERE user_id = ? AND sync_version > ? ORDER BY sync_version ASC LIMIT 1000`. -/
def getSyncEventsSince (db : DB) (userId : String) (sinceVersion : Int) : List SyncEvent :=
  ((sortByKey (fun e => e.syncVersion)
      (db.syncEvents.filter (fun e => e.userId == userId && sinceVersion < e.syncVersion))).take
    1000).map rowToSyncEvent

/-- `clearAllBookmarks`: hard-deletes the user's bookmarks and sync events and
resets the ledger row to 0. -/
def clearAllBookmarks (db : DB) (userId : String) : DB :=
  { bookmarks := db.bookmarks.filter (fun b => !(b.userId == userId)),
    syncEvents := db.syncEvents.filter (fun e => !(e.userId == userId)),
    syncVersions := db.syncVersions.map (fun p => if p.1 == userId then (p.1, 0) else p) }

/-- The server→client WebSocket messages the handlers below can produce. -/
inductive ServerMsg where
  | syncFull (bookmarks : List Bookmark) (syncVersion : Int)
  | syncIncremental (events : List SyncEvent) (currentVersion : Int)
  | bookmarkAck (requestId : String) (id : String) (syncVersion : Int)
  | conflictMsg (requestId : String) (id : String) (serverVersion : Bookmark)
      (clientVersion : EventPayload)
  | errorMsg (requestId : Option String) (code : String) (message : String)
deriving DecidableEq, Repr

/-- `handleSyncRequest` from `websocket/index.ts`: full sync when
`lastSyncVersion === 0 || lastSyncVersion >= currentVersion`, incremental
otherwise. -/
def handleSyncRequest (db : DB) (userId : String) (lastSyncVersion : Int) : ServerMsg :=
  let currentVersion := getSyncVersion db userId
  if lastSyncVersion = 0 ∨ currentVersion ≤ lastSyncVersion then
    .syncFull (getAllBookmarks db userId) currentVersion
  else
    .syncIncremental (getSyncEventsSince db userId lastSyncVersion) currentVersion

/-- `handleBookmarkUpdate` from `websocket/index.ts` (authenticated path): the
message sent back to the originating connection, with the database it leaves
behind. A thrown error becomes a `SERVER_ERROR` message. -/
def handleBookmarkUpdate (db : DB) (userId clientId requestId id : String)
    (data : BookmarkPatch) (expectedVersion : Int) (now : Nat) (eventId : String) :
    ServerMsg × DB :=
  match updateBookmark db id userId data expectedVersion clientId now eventId with
  | .error msg => (.errorMsg (some requestId) "SERVER_ERROR" msg, db)
  | .ok (.conflict server, db') => (.conflictMsg requestId id server (.patchData data), db')
  | .ok (.ok b v, db') => (.bookmarkAck requestId b.id v, db')

/-- `handleBookmarkDelete` from `websocket/index.ts` (authenticated path). -/
def handleBookmarkDelete (db : DB) (userId clientId requestId id : String)
    (expectedVersion : Int) (now : Nat) (eventId : String) : ServerMsg × DB :=
  match deleteBookmark db id userId expectedVersion clientId now eventId with
  | .error msg => (.errorMsg (some requestId) "SERVER_ERROR" msg, db)
  | .ok (.conflict server, db') => (.conflictMsg requestId id server .emptyData, db')
  | .ok (.ok v, db') => (.bookmarkAck requestId id v, db')

/-- `handleBookmarkMove` from `websocket/index.ts` (authenticated path); the
store is called with `message.newParentId || null`, so an empty string is
coerced to null. -/
def handleBookmarkMove (db : DB) (userId clientId requestId id : String)
    (newParentId : Option String) (newIndex : Int) (expectedVersion : Int)
    (now : Nat) (eventId : String) : ServerMsg × DB :=
  let coercedParent := newParentId.bind (fun s => if s = "" then none else some s)
  match moveBookmark db id userId coercedParent newIndex expectedVersion clientId now eventId with
  | .error msg => (.errorMsg (some requestId) "SERVER_ERROR" msg, db)
  | .ok (.conflict server, db') =>
    (.conflictMsg requestId id server (.moveData newParentId newIndex), db')
  | .ok (.ok b v, db') => (.bookmarkAck requestId b.id v, db')

/-- The JSON bodies the REST bookmark routes answer with. -/
inductive RestResponse where
  | successTrue
  | updateOk (bookmark : Bookmark) (syncVersion : Int)
  | deleteOk (syncVersion : Int)
  | bookmarkJson (bookmark : Bookmark)
  | notFound404
  | serverError500
deriving DecidableEq, Repr

/-- Parsed body of `PUT|PATCH /api/bookmarks/:id` (`updateSchema`): the patch
fields plus an optional `expectedVersion`. -/
structure UpdateBody where
  patch : BookmarkPatch
  expectedVersion : Option Int := none
deriving DecidableEq, Repr

/-- `router.put('/:id')` from `routes/bookmarks.ts`: defaults a missing
`expectedVersion` to 0, and on conflict replies `{success: true}`. -/
def restPutBookmark (db : DB) (id userId : String) (body : UpdateBody) (now : Nat)
    (eventId : String) : RestResponse × DB :=
  match updateBookmark db id userId body.patch (body.expectedVersion.getD 0) "api" now eventId with
  | .error msg => (if msg = "Bookmark not found" then .notFound404 else .serverError500, db)
  | .ok (.conflict _, db') => (.successTrue, db')
  | .ok (.ok b v, db') => (.updateOk b v, db')

/-- `router.patch('/:id')` from `routes/bookmarks.ts`: identical logic to the
PUT route. -/
def restPatchBookmark (db : DB) (id userId : String) (body : UpdateBody) (now : Nat)
    (eventId : String) : RestResponse × DB :=
  match updateBookmark db id userId body.patch (body.expectedVersion.getD 0) "api" now eventId with
  | .error msg => (if msg = "Bookmark not found" then .notFound404 else .serverError500, db)
  | .ok (.conflict _, db') => (.successTrue, db')
  | .ok (.ok b v, db') => (.updateOk b v, db')

/-- `router.put('/:id/move')` from `routes/bookmarks.ts`: calls `moveBookmark`
with `sortOrder ?? 0` and `expectedVersion` hardcoded to `0`; on conflict
replies `{success: true}`. -/
def restMoveBookmark (db : DB) (id userId : String) (parentId : Option String)
    (sortOrder : Option Int) (now : Nat) (eventId : String) : RestResponse × DB :=
  match moveBookmark db id userId parentId (sortOrder.getD 0) 0 "api" now eventId with
  | .error msg => (if msg = "Bookmark not found" then .notFound404 else .serverError500, db)
  | .ok (.conflict _, db') => (.successTrue, db')
  | .ok (.ok b v, db') => (.updateOk b v, db')

/-- `router.delete('/:id')` from `routes/bookmarks.ts`: a `Bookmark not found`
error and a conflict both become `{success: true}`. -/
def restDeleteBookmark (db : DB) (id userId : String) (expectedVersion : Int)
    (now : Nat) (eventId : String) : RestResponse × DB :=
  match deleteBookmark db id userId expectedVersion "api" now eventId with
  | .error msg => (if msg = "Bookmark not found" then .successTrue else .serverError500, db)
  | .ok (.conflict _, db') => (.successTrue, db')
  | .ok (.ok v, db') => (.deleteOk v, db')

/-- `router.get('/:id')` from `routes/bookmarks.ts`. -/
def restGetBookmark (db : DB) (id userId : String) : RestResponse :=
  match getBookmarkById db id userId with
  | none => .notFound404
  | some b => .bookmarkJson b

/-- One engine mutation, with its nondeterministic inputs (fresh ids, clock)
made explicit. -/
inductive Op where
  | createOp (userId : String) (data : BookmarkCreateData) (clientId newId : String)
      (now : Nat) (eventId : String)
  | updateOp (id userId : String) (data : BookmarkPatch) (expectedVersion : Int)
      (clientId : String) (now : Nat) (eventId : String)
  | deleteOp (id userId : String) (expectedVersion : Int) (clientId : String)
      (now : Nat) (eventId : String)
  | moveOp (id userId : String) (newParentId : Option String) (newIndex : Int)
      (expectedVersion : Int) (clientId : String) (now : Nat) (eventId : String)
deriving DecidableEq, Repr

/-- The user an operation belongs to. -/
def Op.user : Op → String
  | .createOp u _ _ _ _ _ => u
  | .updateOp _ u _ _ _ _ _ => u
  | .deleteOp _ u _ _ _ _ => u
  | .moveOp _ u _ _ _ _ _ _ => u

/-- Run one mutation against the store, keeping the database a failed or
conflicting call leaves behind (which is the original one). -/
def applyOp (db : DB) : Op → DB
  | .createOp u d c nid now eid =>
    match createBookmark db u d c nid now eid with
    | .ok (_, db') => db'
    | .error _ => db
  | .updateOp id u p ev c now eid =>
    match updateBookmark db id u p ev c now eid with
    | .ok (_, db') => db'
    | .error _ => db
  | .deleteOp id u ev c now eid =>
    match deleteBookmark db id u ev c now eid with
    | .ok (_, db') => db'
    | .error _ => db
  | .moveOp id u np ni ev c now eid =>
    match moveBookmark db id u np ni ev c now eid with
    | .ok (_, db') => db'
    | .error _ => db

/-- Whether a mutation succeeds (neither throws nor conflicts). -/
def opSucceeds (db : DB) : Op → Bool
  | .createOp u d c nid now eid =>
    match createBookmark db u d c nid now eid with
    | .ok _ => true
    | .error _ => false
  | .updateOp id u p ev c now eid =>
    match updateBookmark db id u p ev c now eid with
    | .ok (.ok _ _, _) => true
    | _ => false
  | .deleteOp id u ev c now eid =>
    match deleteBookmark db id u ev c now eid with
    | .ok (.ok _, _) => true
    | _ => false
  | .moveOp id u np ni ev c now eid =>
    match moveBookmark db id u np ni ev c now eid with
    | .ok (.ok _ _, _) => true
    | _ => false

/-- The `syncVersion` a successful mutation reports back to its caller. -/
def opResultSyncVersion (db : DB) : Op → Option Int
  | .createOp u d c nid now eid =>
    match createBookmark db u d c nid now eid with
    | .ok ((_, v), _) => some v
    | .error _ => none
  | .updateOp id u p ev c now eid =>
    match updateBookmark db id u p ev c now eid with
    | .ok (.ok _ v, _) => some v
    | _ => none
  | .deleteOp id u ev c now eid =>
    match deleteBookmark db id u ev c now eid with
    | .ok (.ok v, _) => some v
    | _ => none
  | .moveOp id u np ni ev c now eid =>
    match moveBookmark db id u np ni ev c now eid with
    | .ok (.ok _ v, _) => some v
    | _ => none

/-- Run a sequence of mutations. -/
def applyOps (db : DB) (ops : List Op) : DB :=
  ops.foldl applyOp db

/-- How many of the operations belong to user `u` and succeed at the state
they are applied in. -/
def succCount (u : String) : DB → List Op → Nat
  | _, [] => 0
  | db, op :: rest =>
    (if op.user = u ∧ opSucceeds db op then 1 else 0) + succCount u (applyOp db op) rest

/-- Whether an operation is a successful update or move of bookmark
`(id, u)` — exactly the operations that bump that row's `sync_version`. -/
def opBumps (id u : String) (db : DB) : Op → Bool
  | .updateOp id' u' p ev c now eid =>
    id' = id ∧ u' = u ∧ opSucceeds db (.updateOp id' u' p ev c now eid)
  | .moveOp id' u' np ni ev c now eid =>
    id' = id ∧ u' = u ∧ opSucceeds db (.moveOp id' u' np ni ev c now eid)
  | _ => false

/-- How many operations in the sequence bump `(id, u)`'s stored
`sync_version`. -/
def bumpCount (id u : String) : DB → List Op → Nat
  | _, [] => 0
  | db, op :: rest =>
    (if opBumps id u db op then 1 else 0) + bumpCount id u (applyOp db op) rest

/-- The user's rows of the `sync_events` table, in insertion order. -/
def eventsFor (u : String) (db : DB) : List SyncEventRow :=
  db.syncEvents.filter (fun e => e.userId == u)

/-- The version stamped on the user's most recently recorded sync event. -/
def lastUserEventVersion (u : String) (db : DB) : Option Int :=
  (eventsFor u db).getLast?.map (fun e => e.syncVersion)

/-- Whether the user has a `sync_versions` ledger row (created at user
registration; `incrementSyncVersion`'s UPDATE only sticks when it exists). -/
def hasLedger (db : DB) (u : String) : Bool :=
  (db.syncVersions.find? (fun p => p.1 == u)).isSome

/-! ### Concrete data for evaluating the development on explicit inputs -/

/-- A concrete create payload. -/
def wData : BookmarkCreateData :=
  { parentId := none, title := "Example", url := some "https://example.com",
    isFolder := false, sortOrder := 0, favicon := none }

/-- A concrete update patch. -/
def wPatch : BookmarkPatch := { title := some "Renamed" }

/-- A live concrete bookmark row, version 1. -/
def wBookmark : Bookmark :=
  { id := "b1", userId := "u1", parentId := none, title := "Example",
    url := some "https://example.com", favicon := none, dateAdded := 1,
    dateModified := 1, isFolder := false, sortOrder := 0, syncVersion := 1,
    isDeleted := false, deletedAt := none }

/-- A soft-deleted concrete bookmark row, version 3. -/
def wDeletedBookmark : Bookmark :=
  { wBookmark with id := "b2", syncVersion := 3, isDeleted := true, deletedAt := some 2 }

/-- A database holding one live and one soft-deleted bookmark, ledger at 5. -/
def dbW : DB :=
  { bookmarks := [wBookmark, wDeletedBookmark], syncEvents := [],
    syncVersions := [("u1", 5)] }

/-- A concrete sync-event row for user `u1`. -/
def wEv (eid : String) (v : Int) : SyncEventRow :=
  ⟨eid, "u1", .update, "b1", .patchData {}, 0, "c1", v⟩

/-- A database whose ledger stands at 50 with three recorded events. -/
def dbC2 : DB :=
  { bookmarks := [], syncEvents := [wEv "e1" 5, wEv "e2" 20, wEv "e3" 30],
    syncVersions := [("u1", 50)] }

/-- A fresh user database: no bookmarks, no events, ledger 0. -/
def dbZero : DB := { bookmarks := [], syncEvents := [], syncVersions := [("u1", 0)] }

/-- create, a successful update, then a stale (conflicting) update. -/
def wOps : List Op :=
  [Op.createOp "u1" wData "c1" "b1" 1 "e1",
   Op.updateOp "b1" "u1" wPatch 1 "c1" 2 "e2",
   Op.updateOp "b1" "u1" wPatch 7 "c1" 3 "e3"]

/-- A concrete create operation. -/
def wCreate : Op := Op.createOp "u1" wData "c1" "b1" 1 "e1"

/-- Soft-delete of the freshly created bookmark, `expectedVersion = 1`. -/
def wDelete : Op := Op.deleteOp "b1" "u1" 1 "c1" 2 "e2"

/-- `dbZero` after creating bookmark `b1`. -/
def dbAfterCreate : DB := applyOp dbZero wCreate

/-- `dbAfterCreate` after soft-deleting `b1` (ledger now 2). -/
def dbAfterDelete : DB := applyOp dbAfterCreate wDelete

/-! ### List-level helper lemmas -/

theorem insertSorted_perm (key : α → Int) (x : α) (l : List α) :
    List.Perm (insertSorted key x l) (x :: l) := by
  induction l with
  | nil => simp [insertSorted]
  | cons y ys ih =>
    simp only [insertSorted]
    split
    · exact List.Perm.refl _
    · exact (ih.cons y).trans (List.Perm.swap x y ys)

theorem sortByKey_perm (key : α → Int) (l : List α) : List.Perm (sortByKey key l) l := by
  induction l with
  | nil => simp [sortByKey]
  | cons x xs ih =>
    exact (insertSorted_perm key x (sortByKey key xs)).trans (ih.cons x)

theorem mem_sortByKey (key : α → Int) (l : List α) (a : α) :
    a ∈ sortByKey key l ↔ a ∈ l :=
  (sortByKey_perm key l).mem_iff

theorem length_sortByKey (key : α → Int) (l : List α) :
    (sortByKey key l).length = l.length :=
  (sortByKey_perm key l).length_eq

theorem pairwise_insertSorted (key : α → Int) (x : α) (l : List α)
    (h : l.Pairwise (fun a b => key a ≤ key b)) :
    (insertSorted key x l).Pairwise (fun a b => key a ≤ key b) := by
  induction l with
  | nil => simp [insertSorted]
  | cons y ys ih =>
    simp only [insertSorted]
    split
    · rename_i hxy
      refine List.pairwise_cons.2 ⟨?_, h⟩
      intro a ha
      rcases List.mem_cons.1 ha with rfl | ha
      · exact hxy
      · exact le_trans hxy (List.rel_of_pairwise_cons h ha)
    · rename_i hxy
      have hy := List.pairwise_cons.1 h
      refine List.pairwise_cons.2 ⟨?_, ih hy.2⟩
      intro a ha
      rcases List.mem_cons.1 ((insertSorted_perm key x ys).mem_iff.1 ha) with rfl | ha
      · exact le_of_not_le hxy
      · exact hy.1 a ha

theorem pairwise_sortByKey (key : α → Int) (l : List α) :
    (sortByKey key l).Pairwise (fun a b => key a ≤ key b) := by
  induction l with
  | nil => simp [sortByKey]
  | cons x xs ih => exact pairwise_insertSorted key x _ ih

theorem find?_map_pred_eq (l : List α) (q : α → Bool) (F : α → α)
    (h : ∀ a, q (F a) = q a) :
    (l.map F).find? q = (l.find? q).map F := by
  induction l with
  | nil => simp
  | cons a as ih =>
    by_cases hq : q a
    · simp [List.find?, h a, hq]
    · simp only [List.map_cons, List.find?]
      rw [h a]
      simp only [hq]
      exact ih

theorem find?_fst_map_set (l : List (String × Int)) (u : String) (x : Int) :
    (l.map (fun p => if p.1 == u then (p.1, x) else p)).find? (fun p => p.1 == u)
      = (l.find? (fun p => p.1 == u)).map (fun p => (p.1, x)) := by
  induction l with
  | nil => simp
  | cons a as ih =>
    by_cases ha : (a.1 == u) = true
    · have hFa : (if (a.1 == u) = true then (a.1, x) else a) = (a.1, x) := if_pos ha
      rw [List.map_cons, hFa,
        List.find?_cons_of_pos (p := fun q : String × Int => q.1 == u)
          (a := ((a.1, x) : String × Int)) _ ha,
        List.find?_cons_of_pos (p := fun q : String × Int => q.1 == u) _ ha]
      rfl
    · have hFa : (if (a.1 == u) = true then (a.1, x) else a) = a := if_neg ha
      rw [List.map_cons, hFa, List.find?_cons_of_neg (p := fun q : String × Int => q.1 == u) _ ha,
        List.find?_cons_of_neg (p := fun q : String × Int => q.1 == u) _ ha, ih]

/-! ### Ledger lemmas -/

theorem incrementSyncVersion_fst (db : DB) (u : String) :
    (incrementSyncVersion db u).1 = getSyncVersion db u + 1 := rfl

theorem incrementSyncVersion_bookmarks (db : DB) (u : String) :
    (incrementSyncVersion db u).2.bookmarks = db.bookmarks := rfl

theorem incrementSyncVersion_syncEvents (db : DB) (u : String) :
    (incrementSyncVersion db u).2.syncEvents = db.syncEvents := rfl

theorem getSyncVersion_eq_find? (db : DB) (u : String) :
    getSyncVersion db u
      = ((db.syncVersions.find? (fun p => p.1 == u)).map (fun p => p.2)).getD 0 := by
  unfold getSyncVersion
  cases db.syncVersions.find? (fun p => p.1 == u) <;> rfl

theorem increment_syncVersions (db : DB) (u : String) :
    (incrementSyncVersion db u).2.syncVersions
      = db.syncVersions.map
          (fun q => if q.1 == u then (q.1, getSyncVersion db u + 1) else q) := rfl

theorem getSyncVersion_increment_self (db : DB) (u : String) (h : hasLedger db u = true) :
    getSyncVersion (incrementSyncVersion db u).2 u = getSyncVersion db u + 1 := by
  unfold hasLedger at h
  cases hf : db.syncVersions.find? (fun p => p.1 == u) with
  | none => rw [hf] at h; simp at h
  | some p =>
    rw [getSyncVersion_eq_find? _ u, increment_syncVersions, find?_fst_map_set, hf]
    rfl

theorem getSyncVersion_increment_other (db : DB) (u u' : String) (h : ¬ u' = u) :
    getSyncVersion (incrementSyncVersion db u).2 u' = getSyncVersion db u' := by
  rw [getSyncVersion_eq_find? _ u', getSyncVersion_eq_find? db u', increment_syncVersions,
    find?_map_pred_eq]
  · cases hf : db.syncVersions.find? (fun p => p.1 == u') with
    | none => rfl
    | some p =>
      have hp := List.find?_some hf
      simp only [beq_iff_eq] at hp
      have hpu : ¬ p.1 = u := fun hc => h (hp.symm.trans hc)
      simp [hpu]
  · intro a
    by_cases hau : (a.1 == u) = true <;> simp [hau]

theorem hasLedger_eq_find? (db : DB) (u : String) :
    hasLedger db u = (db.syncVersions.find? (fun p => p.1 == u)).isSome := rfl

theorem hasLedger_increment (db : DB) (u u' : String) :
    hasLedger (incrementSyncVersion db u).2 u' = hasLedger db u' := by
  rw [hasLedger_eq_find?, hasLedger_eq_find?, increment_syncVersions, find?_map_pred_eq]
  · cases db.syncVersions.find? (fun p => p.1 == u') <;> rfl
  · intro a
    by_cases hau : (a.1 == u) = true <;> simp [hau]

theorem getSyncVersion_recordSyncEvent (db : DB) (u : String) (t : EventType)
    (bid : String) (d : EventPayload) (c : String) (v : Int) (eid : String) (now : Nat)
    (u' : String) :
    getSyncVersion (recordSyncEvent db u t bid d c v eid now) u' = getSyncVersion db u' := rfl

theorem hasLedger_recordSyncEvent (db : DB) (u : String) (t : EventType)
    (bid : String) (d : EventPayload) (c : String) (v : Int) (eid : String) (now : Nat)
    (u' : String) :
    hasLedger (recordSyncEvent db u t bid d c v eid now) u' = hasLedger db u' := rfl

/-! ### Inversion lemmas for the store operations -/

theorem getBookmarkById_map (db : DB) (id u id' u' : String) (g : Bookmark → Bookmark)
    (hid : ∀ x, (g x).id = x.id) (hu : ∀ x, (g x).userId = x.userId) :
    getBookmarkById
        { db with
            bookmarks := db.bookmarks.map
              (fun x => if x.id == id && x.userId == u then g x else x) } id' u'
      = (getBookmarkById db id' u').map
          (fun x => if x.id == id && x.userId == u then g x else x) := by
  unfold getBookmarkById
  exact find?_map_pred_eq _ _ _ (by
    intro a
    by_cases hqa : (a.id == id && a.userId == u) = true
    · simp [hqa, hid, hu]
    · simp [hqa])

theorem getBookmarkById_append (db : DB) (row : Bookmark) (id' u' : String) :
    getBookmarkById { db with bookmarks := db.bookmarks ++ [row] } id' u'
      = (getBookmarkById db id' u').or
          (if row.id == id' && row.userId == u' then some row else none) := by
  unfold getBookmarkById
  rw [List.find?_append]
  by_cases hq : (row.id == id' && row.userId == u') = true
  · simp [List.find?, hq]
  · simp [List.find?, hq]

theorem updateBookmark_ok_facts {db : DB} {id u : String} {p : BookmarkPatch} {ev : Int}
    {c : String} {now : Nat} {eid : String} {b : Bookmark} {v : Int} {db' : DB}
    (h : updateBookmark db id u p ev c now eid = .ok (.ok b v, db')) :
    (∃ existing, getBookmarkById db id u = some existing ∧ existing.syncVersion = ev) ∧
    v = getSyncVersion db u + 1 ∧
    db'.bookmarks = db.bookmarks.map
      (fun x => if x.id == id && x.userId == u then applyPatch x p now else x) ∧
    db'.syncEvents = db.syncEvents ++
      [⟨eid, u, .update, id, .patchData p, now, c, getSyncVersion db u + 1⟩] ∧
    db'.syncVersions = db.syncVersions.map
      (fun q => if q.1 == u then (q.1, getSyncVersion db u + 1) else q) ∧
    getBookmarkById db' id u = some b := by
  unfold updateBookmark at h
  split at h
  · exact absurd h (by simp)
  · rename_i existing hg
    split at h
    · exact absurd h (by simp)
    · rename_i hv
      simp only at h
      split at h
      · rename_i bookmark hg3
        simp only [Except.ok.injEq, Prod.mk.injEq, MutResult.ok.injEq] at h
        obtain ⟨⟨hb, hv2⟩, hdb⟩ := h
        subst hb; subst hv2; subst hdb
        refine ⟨⟨existing, hg, not_not.1 hv⟩, rfl, rfl, rfl, rfl, hg3⟩
      · exact absurd h (by simp)

theorem deleteBookmark_ok_facts {db : DB} {id u : String} {ev : Int}
    {c : String} {now : Nat} {eid : String} {v : Int} {db' : DB}
    (h : deleteBookmark db id u ev c now eid = .ok (.ok v, db')) :
    (∃ existing, getBookmarkById db id u = some existing ∧ existing.syncVersion = ev) ∧
    v = getSyncVersion db u + 1 ∧
    db'.bookmarks = db.bookmarks.map
      (fun x => if x.id == id && x.userId == u then softDeleteRow x now else x) ∧
    db'.syncEvents = db.syncEvents ++
      [⟨eid, u, .delete, id, .emptyData, now, c, getSyncVersion db u + 1⟩] ∧
    db'.syncVersions = db.syncVersions.map
      (fun q => if q.1 == u then (q.1, getSyncVersion db u + 1) else q) := by
  unfold deleteBookmark at h
  split at h
  · exact absurd h (by simp)
  · rename_i existing hg
    split at h
    · exact absurd h (by simp)
    · rename_i hv
      simp only [Except.ok.injEq, Prod.mk.injEq, DelResult.ok.injEq] at h
      obtain ⟨hv2, hdb⟩ := h
      subst hv2; subst hdb
      exact ⟨⟨existing, hg, not_not.1 hv⟩, rfl, rfl, rfl, rfl⟩

theorem moveBookmark_ok_facts {db : DB} {id u : String} {np : Option String} {ni : Int}
    {ev : Int} {c : String} {now : Nat} {eid : String} {b : Bookmark} {v : Int} {db' : DB}
    (h : moveBookmark db id u np ni ev c now eid = .ok (.ok b v, db')) :
    (∃ existing, getBookmarkById db id u = some existing ∧ existing.syncVersion = ev) ∧
    v = getSyncVersion db u + 1 ∧
    db'.bookmarks = db.bookmarks.map
      (fun x => if x.id == id && x.userId == u then moveRow x np ni now else x) ∧
    db'.syncEvents = db.syncEvents ++
      [⟨eid, u, .move, id, .moveData np ni, now, c, getSyncVersion db u + 1⟩] ∧
    db'.syncVersions = db.syncVersions.map
      (fun q => if q.1 == u then (q.1, getSyncVersion db u + 1) else q) ∧
    getBookmarkById db' id u = some b := by
  unfold moveBookmark at h
  split at h
  · exact absurd h (by simp)
  · rename_i existing hg
    split at h
    · exact absurd h (by simp)
    · rename_i hv
      simp only at h
      split at h
      · rename_i bookmark hg3
        simp only [Except.ok.injEq, Prod.mk.injEq, MutResult.ok.injEq] at h
        obtain ⟨⟨hb, hv2⟩, hdb⟩ := h
        subst hb; subst hv2; subst hdb
        refine ⟨⟨existing, hg, not_not.1 hv⟩, rfl, ?_, ?_, ?_, hg3⟩ <;> rfl
      · exact absurd h (by simp)

theorem createBookmark_ok_facts {db : DB} {u : String} {d : BookmarkCreateData}
    {c nid : String} {now : Nat} {eid : String} {b : Bookmark} {v : Int} {db' : DB}
    (h : createBookmark db u d c nid now eid = .ok ((b, v), db')) :
    db.bookmarks.any (fun x => x.id == nid) = false ∧
    v = getSyncVersion db u + 1 ∧
    db'.bookmarks = db.bookmarks ++ [createdRow u d nid now] ∧
    db'.syncEvents = db.syncEvents ++
      [⟨eid, u, .create, nid, .createData d nid, now, c, getSyncVersion db u + 1⟩] ∧
    db'.syncVersions = db.syncVersions.map
      (fun q => if q.1 == u then (q.1, getSyncVersion db u + 1) else q) ∧
    getBookmarkById db' nid u = some b ∧ b = createdRow u d nid now := by
  unfold createBookmark at h
  split at h
  · exact absurd h (by simp)
  · rename_i hany
    simp only at h
    split at h
    · rename_i bookmark hg3
      simp only [Except.ok.injEq, Prod.mk.injEq] at h
      obtain ⟨⟨hb, hv2⟩, hdb⟩ := h
      subst hb; subst hv2; subst hdb
      have hany' : db.bookmarks.any (fun x => x.id == nid) = false :=
        Bool.not_eq_true _ ▸ (by simpa using hany)
      have hnone : getBookmarkById db nid u = none := by
        unfold getBookmarkById
        refine List.find?_eq_none.2 ?_
        intro x hx
        have := (List.any_eq_false).1 hany' x hx
        simp only [Bool.and_eq_true, not_and]
        intro hxid
        exact absurd hxid this
      have hsome : getBookmarkById
          { db with bookmarks := db.bookmarks ++ [createdRow u d nid now] } nid u
            = some (createdRow u d nid now) := by
        rw [getBookmarkById_append, hnone]
        simp [createdRow]
      have hb3 : getBookmarkById
          (recordSyncEvent
            (incrementSyncVersion { db with bookmarks := db.bookmarks ++ [createdRow u d nid now] } u).2
            u .create nid (.createData d nid) c
            (incrementSyncVersion { db with bookmarks := db.bookmarks ++ [createdRow u d nid now] } u).1
            eid now) nid u = some (createdRow u d nid now) := hsome
      rw [hb3] at hg3
      obtain rfl : createdRow u d nid now = bookmark := by
        injection hg3
      exact ⟨hany', rfl, rfl, rfl, rfl, hb3, rfl⟩
    · exact absurd h (by simp)

theorem updateBookmark_conflict_inv {db : DB} {id u : String} {p : BookmarkPatch} {ev : Int}
    {c : String} {now : Nat} {eid : String} {s : Bookmark} {db' : DB}
    (h : updateBookmark db id u p ev c now eid = .ok (.conflict s, db')) :
    db' = db ∧ getBookmarkById db id u = some s ∧ ¬ s.syncVersion = ev := by
  unfold updateBookmark at h
  split at h
  · exact absurd h (by simp)
  · rename_i existing hg
    split at h
    · rename_i hv
      simp only [Except.ok.injEq, Prod.mk.injEq, MutResult.conflict.injEq] at h
      obtain ⟨hs, hdb⟩ := h
      subst hs; subst hdb
      exact ⟨rfl, hg, hv⟩
    · simp only at h
      split at h
      · exact absurd h (by simp)
      · exact absurd h (by simp)

theorem deleteBookmark_conflict_inv {db : DB} {id u : String} {ev : Int}
    {c : String} {now : Nat} {eid : String} {s : Bookmark} {db' : DB}
    (h : deleteBookmark db id u ev c now eid = .ok (.conflict s, db')) :
    db' = db ∧ getBookmarkById db id u = some s ∧ ¬ s.syncVersion = ev := by
  unfold deleteBookmark at h
  split at h
  · exact absurd h (by simp)
  · rename_i existing hg
    split at h
    · rename_i hv
      simp only [Except.ok.injEq, Prod.mk.injEq, DelResult.conflict.injEq] at h
      obtain ⟨hs, hdb⟩ := h
      subst hs; subst hdb
      exact ⟨rfl, hg, hv⟩
    · exact absurd h (by simp)

theorem moveBookmark_conflict_inv {db : DB} {id u : String} {np : Option String} {ni : Int}
    {ev : Int} {c : String} {now : Nat} {eid : String} {s : Bookmark} {db' : DB}
    (h : moveBookmark db id u np ni ev c now eid = .ok (.conflict s, db')) :
    db' = db ∧ getBookmarkById db id u = some s ∧ ¬ s.syncVersion = ev := by
  unfold moveBookmark at h
  split at h
  · exact absurd h (by simp)
  · rename_i existing hg
    split at h
    · rename_i hv
      simp only [Except.ok.injEq, Prod.mk.injEq, MutResult.conflict.injEq] at h
      obtain ⟨hs, hdb⟩ := h
      subst hs; subst hdb
      exact ⟨rfl, hg, hv⟩
    · simp only at h
      split at h
      · exact absurd h (by simp)
      · exact absurd h (by simp)

theorem updateBookmark_conflict_of {db : DB} {id u : String} (p : BookmarkPatch) {ev : Int}
    (c : String) (now : Nat) (eid : String) {s : Bookmark}
    (hb : getBookmarkById db id u = some s) (hv : ¬ s.syncVersion = ev) :
    updateBookmark db id u p ev c now eid = .ok (.conflict s, db) := by
  unfold updateBookmark
  rw [hb]
  simp [hv]

theorem deleteBookmark_conflict_of {db : DB} {id u : String} {ev : Int}
    (c : String) (now : Nat) (eid : String) {s : Bookmark}
    (hb : getBookmarkById db id u = some s) (hv : ¬ s.syncVersion = ev) :
    deleteBookmark db id u ev c now eid = .ok (.conflict s, db) := by
  unfold deleteBookmark
  rw [hb]
  simp [hv]

theorem moveBookmark_conflict_of {db : DB} {id u : String} (np : Option String) (ni : Int)
    {ev : Int} (c : String) (now : Nat) (eid : String) {s : Bookmark}
    (hb : getBookmarkById db id u = some s) (hv : ¬ s.syncVersion = ev) :
    moveBookmark db id u np ni ev c now eid = .ok (.conflict s, db) := by
  unfold moveBookmark
  rw [hb]
  simp [hv]

theorem updateBookmark_notFound_of {db : DB} {id u : String} (p : BookmarkPatch) (ev : Int)
    (c : String) (now : Nat) (eid : String) (hb : getBookmarkById db id u = none) :
    updateBookmark db id u p ev c now eid = .error "Bookmark not found" := by
  unfold updateBookmark
  rw [hb]

theorem deleteBookmark_notFound_of {db : DB} {id u : String} (ev : Int)
    (c : String) (now : Nat) (eid : String) (hb : getBookmarkById db id u = none) :
    deleteBookmark db id u ev c now eid = .error "Bookmark not found" := by
  unfold deleteBookmark
  rw [hb]

theorem moveBookmark_notFound_of {db : DB} {id u : String} (np : Option String) (ni : Int)
    (ev : Int) (c : String) (now : Nat) (eid : String)
    (hb : getBookmarkById db id u = none) :
    moveBookmark db id u np ni ev c now eid = .error "Bookmark not found" := by
  unfold moveBookmark
  rw [hb]

theorem getBookmarkById_eq_find? (db : DB) (id u : String) :
    getBookmarkById db id u
      = db.bookmarks.find? (fun b => b.id == id && b.userId == u) := rfl

theorem getSyncVersion_of_set {db db' : DB} {u : String} {w : Int}
    (hsv : db'.syncVersions
      = db.syncVersions.map (fun q => if q.1 == u then (q.1, w) else q))
    (hL : hasLedger db u = true) : getSyncVersion db' u = w := by
  rw [getSyncVersion_eq_find?, hsv, find?_fst_map_set]
  unfold hasLedger at hL
  cases hf : db.syncVersions.find? (fun p => p.1 == u) with
  | none => rw [hf] at hL; simp at hL
  | some p => simp

theorem getSyncVersion_of_set_other {db db' : DB} {u u' : String} {w : Int}
    (hsv : db'.syncVersions
      = db.syncVersions.map (fun q => if q.1 == u then (q.1, w) else q))
    (h : ¬ u' = u) : getSyncVersion db' u' = getSyncVersion db u' := by
  rw [getSyncVersion_eq_find?, getSyncVersion_eq_find? db u', hsv, find?_map_pred_eq]
  · cases hf : db.syncVersions.find? (fun p => p.1 == u') with
    | none => rfl
    | some p =>
      have hp := List.find?_some hf
      simp only [beq_iff_eq] at hp
      have hpu : ¬ p.1 = u := fun hc => h (hp.symm.trans hc)
      simp [hpu]
  · intro a
    by_cases hau : (a.1 == u) = true <;> simp [hau]

theorem hasLedger_of_set {db db' : DB} {u u' : String} {w : Int}
    (hsv : db'.syncVersions
      = db.syncVersions.map (fun q => if q.1 == u then (q.1, w) else q)) :
    hasLedger db' u' = hasLedger db u' := by
  rw [hasLedger_eq_find?, hasLedger_eq_find?, hsv, find?_map_pred_eq]
  · cases db.syncVersions.find? (fun p => p.1 == u') <;> rfl
  · intro a
    by_cases hau : (a.1 == u) = true <;> simp [hau]

theorem eventsFor_of_append {db db' : DB} {e : SyncEventRow}
    (hse : db'.syncEvents = db.syncEvents ++ [e]) (u' : String) :
    eventsFor u' db' = eventsFor u' db ++ (if e.userId == u' then [e] else []) := by
  unfold eventsFor
  rw [hse, List.filter_append]
  by_cases he : (e.userId == u') = true <;> simp [List.filter, he]

theorem updateBookmark_ok_of {db : DB} {id u : String} (p : BookmarkPatch) {ev : Int}
    (c : String) (now : Nat) (eid : String) {s : Bookmark}
    (hb : getBookmarkById db id u = some s) (hv : s.syncVersion = ev) :
    updateBookmark db id u p ev c now eid
      = .ok (.ok (applyPatch s p now) (getSyncVersion db u + 1),
          recordSyncEvent
            (incrementSyncVersion
              { db with
                  bookmarks := db.bookmarks.map
                    (fun x => if x.id == id && x.userId == u then applyPatch x p now else x) } u).2
            u .update id (.patchData p) c
            (incrementSyncVersion
              { db with
                  bookmarks := db.bookmarks.map
                    (fun x => if x.id == id && x.userId == u then applyPatch x p now else x) } u).1
            eid now) := by
  subst hv
  have hps : (s.id == id && s.userId == u) = true :=
    List.find?_some (p := fun b : Bookmark => b.id == id && b.userId == u) hb
  rw [Bool.and_eq_true, beq_iff_eq, beq_iff_eq] at hps
  have hg1 : getBookmarkById
      { db with
          bookmarks := db.bookmarks.map
            (fun x => if x.id == id && x.userId == u then applyPatch x p now else x) } id u
        = some (applyPatch s p now) := by
    rw [getBookmarkById_map db id u id u (fun x => applyPatch x p now)
      (fun x => rfl) (fun x => rfl), hb]
    simp [hps.1, hps.2]
  have hg3 : getBookmarkById
      (recordSyncEvent
        (incrementSyncVersion
          { db with
              bookmarks := db.bookmarks.map
                (fun x => if x.id == id && x.userId == u then applyPatch x p now else x) } u).2
        u .update id (.patchData p) c
        (incrementSyncVersion
          { db with
              bookmarks := db.bookmarks.map
                (fun x => if x.id == id && x.userId == u then applyPatch x p now else x) } u).1
        eid now) id u = some (applyPatch s p now) := hg1
  simp only [updateBookmark, hb]
  rw [if_neg (show ¬ s.syncVersion ≠ s.syncVersion from fun hne => hne rfl)]
  rw [hg3]
  rfl

theorem deleteBookmark_ok_of {db : DB} {id u : String} {ev : Int}
    (c : String) (now : Nat) (eid : String) {s : Bookmark}
    (hb : getBookmarkById db id u = some s) (hv : s.syncVersion = ev) :
    deleteBookmark db id u ev c now eid
      = .ok (.ok (getSyncVersion db u + 1),
          recordSyncEvent
            (incrementSyncVersion
              { db with
                  bookmarks := db.bookmarks.map
                    (fun x => if x.id == id && x.userId == u then softDeleteRow x now else x) } u).2
            u .delete id .emptyData c
            (incrementSyncVersion
              { db with
                  bookmarks := db.bookmarks.map
                    (fun x => if x.id == id && x.userId == u then softDeleteRow x now else x) } u).1
            eid now) := by
  subst hv
  simp only [deleteBookmark, hb]
  rw [if_neg (show ¬ s.syncVersion ≠ s.syncVersion from fun hne => hne rfl)]
  rfl

theorem moveBookmark_ok_of {db : DB} {id u : String} (np : Option String) (ni : Int)
    {ev : Int} (c : String) (now : Nat) (eid : String) {s : Bookmark}
    (hb : getBookmarkById db id u = some s) (hv : s.syncVersion = ev) :
    moveBookmark db id u np ni ev c now eid
      = .ok (.ok (moveRow s np ni now) (getSyncVersion db u + 1),
          recordSyncEvent
            (incrementSyncVersion
              { db with
                  bookmarks := db.bookmarks.map
                    (fun x => if x.id == id && x.userId == u then moveRow x np ni now else x) } u).2
            u .move id (.moveData np ni) c
            (incrementSyncVersion
              { db with
                  bookmarks := db.bookmarks.map
                    (fun x => if x.id == id && x.userId == u then moveRow x np ni now else x) } u).1
            eid now) := by
  subst hv
  have hps : (s.id == id && s.userId == u) = true :=
    List.find?_some (p := fun b : Bookmark => b.id == id && b.userId == u) hb
  rw [Bool.and_eq_true, beq_iff_eq, beq_iff_eq] at hps
  have hg1 : getBookmarkById
      { db with
          bookmarks := db.bookmarks.map
            (fun x => if x.id == id && x.userId == u then moveRow x np ni now else x) } id u
        = some (moveRow s np ni now) := by
    rw [getBookmarkById_map db id u id u (fun x => moveRow x np ni now)
      (fun x => rfl) (fun x => rfl), hb]
    simp [hps.1, hps.2]
  have hg3 : getBookmarkById
      (recordSyncEvent
        (incrementSyncVersion
          { db with
              bookmarks := db.bookmarks.map
                (fun x => if x.id == id && x.userId == u then moveRow x np ni now else x) } u).2
        u .move id (.moveData np ni) c
        (incrementSyncVersion
          { db with
              bookmarks := db.bookmarks.map
                (fun x => if x.id == id && x.userId == u then moveRow x np ni now else x) } u).1
        eid now) id u = some (moveRow s np ni now) := hg1
  simp only [moveBookmark, hb]
  rw [if_neg (show ¬ s.syncVersion ≠ s.syncVersion from fun hne => hne rfl)]
  rw [hg3]
  rfl

/-! ### Per-operation effect lemmas -/

theorem applyOp_of_fail {db : DB} {op : Op} (h : opSucceeds db op = false) :
    applyOp db op = db := by
  cases op with
  | createOp u d c nid now eid =>
    simp only [opSucceeds] at h
    simp only [applyOp]
    cases hc : createBookmark db u d c nid now eid with
    | ok val => rw [hc] at h; simp at h
    | error msg => rfl
  | updateOp id u p ev c now eid =>
    simp only [opSucceeds] at h
    simp only [applyOp]
    cases hc : updateBookmark db id u p ev c now eid with
    | ok val =>
      obtain ⟨res, db'⟩ := val
      cases res with
      | ok b v => rw [hc] at h; simp at h
      | conflict s => exact (updateBookmark_conflict_inv hc).1
    | error msg => rfl
  | deleteOp id u ev c now eid =>
    simp only [opSucceeds] at h
    simp only [applyOp]
    cases hc : deleteBookmark db id u ev c now eid with
    | ok val =>
      obtain ⟨res, db'⟩ := val
      cases res with
      | ok v => rw [hc] at h; simp at h
      | conflict s => exact (deleteBookmark_conflict_inv hc).1
    | error msg => rfl
  | moveOp id u np ni ev c now eid =>
    simp only [opSucceeds] at h
    simp only [applyOp]
    cases hc : moveBookmark db id u np ni ev c now eid with
    | ok val =>
      obtain ⟨res, db'⟩ := val
      cases res with
      | ok b v => rw [hc] at h; simp at h
      | conflict s => exact (moveBookmark_conflict_inv hc).1
    | error msg => rfl

theorem applyOp_success_effect {db : DB} {op : Op} (h : opSucceeds db op = true) :
    (∃ e : SyncEventRow, (applyOp db op).syncEvents = db.syncEvents ++ [e] ∧
       e.userId = op.user ∧ e.syncVersion = getSyncVersion db op.user + 1) ∧
    (applyOp db op).syncVersions = db.syncVersions.map
      (fun q => if q.1 == op.user then (q.1, getSyncVersion db op.user + 1) else q) ∧
    opResultSyncVersion db op = some (getSyncVersion db op.user + 1) := by
  cases op with
  | createOp u d c nid now eid =>
    simp only [opSucceeds] at h
    simp only [applyOp, opResultSyncVersion, Op.user]
    cases hc : createBookmark db u d c nid now eid with
    | error msg => rw [hc] at h; simp at h
    | ok val =>
      obtain ⟨⟨b, v⟩, db'⟩ := val
      obtain ⟨-, hv, -, hse, hsv, -, -⟩ := createBookmark_ok_facts hc
      simp only [hc]
      exact ⟨⟨_, hse, rfl, rfl⟩, hsv, by rw [hv]⟩
  | updateOp id u p ev c now eid =>
    simp only [opSucceeds] at h
    simp only [applyOp, opResultSyncVersion, Op.user]
    cases hc : updateBookmark db id u p ev c now eid with
    | error msg => rw [hc] at h; simp at h
    | ok val =>
      obtain ⟨res, db'⟩ := val
      cases res with
      | conflict s => rw [hc] at h; simp at h
      | ok b v =>
        obtain ⟨-, hv, -, hse, hsv, -⟩ := updateBookmark_ok_facts hc
        simp only [hc]
        exact ⟨⟨_, hse, rfl, rfl⟩, hsv, by rw [hv]⟩
  | deleteOp id u ev c now eid =>
    simp only [opSucceeds] at h
    simp only [applyOp, opResultSyncVersion, Op.user]
    cases hc : deleteBookmark db id u ev c now eid with
    | error msg => rw [hc] at h; simp at h
    | ok val =>
      obtain ⟨res, db'⟩ := val
      cases res with
      | conflict s => rw [hc] at h; simp at h
      | ok v =>
        obtain ⟨-, hv, -, hse, hsv⟩ := deleteBookmark_ok_facts hc
        simp only [hc]
        exact ⟨⟨_, hse, rfl, rfl⟩, hsv, by rw [hv]⟩
  | moveOp id u np ni ev c now eid =>
    simp only [opSucceeds] at h
    simp only [applyOp, opResultSyncVersion, Op.user]
    cases hc : moveBookmark db id u np ni ev c now eid with
    | error msg => rw [hc] at h; simp at h
    | ok val =>
      obtain ⟨res, db'⟩ := val
      cases res with
      | conflict s => rw [hc] at h; simp at h
      | ok b v =>
        obtain ⟨-, hv, -, hse, hsv, -⟩ := moveBookmark_ok_facts hc
        simp only [hc]
        exact ⟨⟨_, hse, rfl, rfl⟩, hsv, by rw [hv]⟩

theorem applyOp_ledger_succ {db : DB} {op : Op} (h : opSucceeds db op = true)
    (hL : hasLedger db op.user = true) :
    getSyncVersion (applyOp db op) op.user = getSyncVersion db op.user + 1 :=
  getSyncVersion_of_set (applyOp_success_effect h).2.1 hL

theorem applyOp_ledger_other (db : DB) (op : Op) {u : String} (h : ¬ u = op.user) :
    getSyncVersion (applyOp db op) u = getSyncVersion db u := by
  cases hs : opSucceeds db op with
  | false => rw [applyOp_of_fail hs]
  | true => exact getSyncVersion_of_set_other (applyOp_success_effect hs).2.1 h

theorem applyOp_events_other (db : DB) (op : Op) {u : String} (h : ¬ u = op.user) :
    eventsFor u (applyOp db op) = eventsFor u db := by
  cases hs : opSucceeds db op with
  | false => rw [applyOp_of_fail hs]
  | true =>
    obtain ⟨⟨e, hse, heu, -⟩, -, -⟩ := applyOp_success_effect hs
    rw [eventsFor_of_append hse u]
    have : (e.userId == u) = false := by
      simp only [beq_eq_false_iff_ne, ne_eq, heu]
      exact fun hc => h hc.symm
    simp [this]

theorem applyOp_events_self {db : DB} {op : Op} (h : opSucceeds db op = true) :
    ∃ e : SyncEventRow, eventsFor op.user (applyOp db op) = eventsFor op.user db ++ [e] ∧
      e.userId = op.user ∧ e.syncVersion = getSyncVersion db op.user + 1 := by
  obtain ⟨⟨e, hse, heu, hev⟩, -, -⟩ := applyOp_success_effect h
  refine ⟨e, ?_, heu, hev⟩
  rw [eventsFor_of_append hse op.user]
  simp [heu]

theorem applyOp_hasLedger (db : DB) (op : Op) (u' : String) :
    hasLedger (applyOp db op) u' = hasLedger db u' := by
  cases hs : opSucceeds db op with
  | false => rw [applyOp_of_fail hs]
  | true => exact hasLedger_of_set (applyOp_success_effect hs).2.1

theorem getBookmarkById_after_map {db db' : DB} {id u id' u' : String} {b : Bookmark}
    (g : Bookmark → Bookmark)
    (hgid : ∀ x, (g x).id = x.id) (hgu : ∀ x, (g x).userId = x.userId)
    (hbm : db'.bookmarks = db.bookmarks.map
      (fun x => if x.id == id' && x.userId == u' then g x else x))
    (hb : getBookmarkById db id u = some b) :
    getBookmarkById db' id u
      = some (if b.id == id' && b.userId == u' then g b else b) := by
  rw [getBookmarkById_eq_find?, hbm, find?_map_pred_eq]
  · rw [getBookmarkById_eq_find?] at hb
    rw [hb]
    rfl
  · intro a
    by_cases hqa : (a.id == id' && a.userId == u') = true
    · simp [hqa, hgid, hgu]
    · simp [hqa]

theorem getBookmarkById_after_append {db db' : DB} {id u : String} {b row : Bookmark}
    (hbm : db'.bookmarks = db.bookmarks ++ [row])
    (hb : getBookmarkById db id u = some b) :
    getBookmarkById db' id u = some b := by
  rw [getBookmarkById_eq_find?, hbm, List.find?_append]
  rw [getBookmarkById_eq_find?] at hb
  rw [hb]
  rfl

theorem applyOp_bookmark_version {db : DB} {id u : String} {b : Bookmark} (op : Op)
    (hb : getBookmarkById db id u = some b) :
    ∃ b', getBookmarkById (applyOp db op) id u = some b' ∧
      b'.syncVersion = b.syncVersion + (if opBumps id u db op then 1 else 0) := by
  have hpb : (b.id == id && b.userId == u) = true :=
    List.find?_some (p := fun x : Bookmark => x.id == id && x.userId == u) hb
  rw [Bool.and_eq_true, beq_iff_eq, beq_iff_eq] at hpb
  cases op with
  | createOp u2 d c nid now eid =>
    simp only [applyOp, opBumps]
    cases hc : createBookmark db u2 d c nid now eid with
    | error msg => exact ⟨b, hb, by simp⟩
    | ok val =>
      obtain ⟨⟨b2, v⟩, db'⟩ := val
      obtain ⟨-, -, hbm, -, -, -, -⟩ := createBookmark_ok_facts hc
      exact ⟨b, getBookmarkById_after_append hbm hb, by simp⟩
  | updateOp id2 u2 p ev c now eid =>
    simp only [applyOp]
    cases hc : updateBookmark db id2 u2 p ev c now eid with
    | error msg =>
      refine ⟨b, hb, ?_⟩
      have hbf : opBumps id u db (.updateOp id2 u2 p ev c now eid) = false := by
        simp [opBumps, opSucceeds, hc]
      simp [hbf]
    | ok val =>
      obtain ⟨res, db'⟩ := val
      cases res with
      | conflict s =>
        obtain ⟨hdb, -, -⟩ := updateBookmark_conflict_inv hc
        refine ⟨b, ?_, ?_⟩
        · rw [hdb]; exact hb
        · have hbf : opBumps id u db (.updateOp id2 u2 p ev c now eid) = false := by
            simp [opBumps, opSucceeds, hc]
          simp [hbf]
      | ok b2 v =>
        obtain ⟨-, -, hbm, -, -, -⟩ := updateBookmark_ok_facts hc
        have hsucc : opSucceeds db (.updateOp id2 u2 p ev c now eid) = true := by
          simp [opSucceeds, hc]
        have hget := getBookmarkById_after_map (fun x => applyPatch x p now)
          (fun x => rfl) (fun x => rfl) hbm hb
        by_cases hiu : id2 = id ∧ u2 = u
        · obtain ⟨h1, h2⟩ := hiu
          have hbump : opBumps id u db (.updateOp id2 u2 p ev c now eid) = true := by
            simp only [opBumps, decide_eq_true_eq]
            exact ⟨h1, h2, hsucc⟩
          have hq : (b.id == id2 && b.userId == u2) = true := by
            rw [Bool.and_eq_true, beq_iff_eq, beq_iff_eq, hpb.1, hpb.2]
            exact ⟨h1.symm, h2.symm⟩
          rw [hq] at hget
          exact ⟨applyPatch b p now, by simpa using hget, by simp [hbump, applyPatch]⟩
        · have hbump : opBumps id u db (.updateOp id2 u2 p ev c now eid) = false := by
            simp only [opBumps, decide_eq_false_iff_not]
            exact fun hcon => hiu ⟨hcon.1, hcon.2.1⟩
          have hnq : ¬ ((b.id == id2 && b.userId == u2) = true) := by
            rw [Bool.and_eq_true, beq_iff_eq, beq_iff_eq, hpb.1, hpb.2]
            exact fun hcon => hiu ⟨hcon.1.symm, hcon.2.symm⟩
          have hq : (b.id == id2 && b.userId == u2) = false := by
            cases hx : (b.id == id2 && b.userId == u2) with
            | false => rfl
            | true => exact absurd hx hnq
          rw [hq] at hget
          exact ⟨b, by simpa using hget, by simp [hbump]⟩
  | deleteOp id2 u2 ev c now eid =>
    simp only [applyOp]
    have hbump : opBumps id u db (.deleteOp id2 u2 ev c now eid) = false := rfl
    cases hc : deleteBookmark db id2 u2 ev c now eid with
    | error msg => exact ⟨b, hb, by simp [hbump]⟩
    | ok val =>
      obtain ⟨res, db'⟩ := val
      cases res with
      | conflict s =>
        obtain ⟨hdb, -, -⟩ := deleteBookmark_conflict_inv hc
        refine ⟨b, ?_, by simp [hbump]⟩
        rw [hdb]; exact hb
      | ok v =>
        obtain ⟨-, -, hbm, -, -⟩ := deleteBookmark_ok_facts hc
        have hget := getBookmarkById_after_map (fun x => softDeleteRow x now)
          (fun x => rfl) (fun x => rfl) hbm hb
        by_cases hq : (b.id == id2 && b.userId == u2) = true
        · rw [hq] at hget
          exact ⟨softDeleteRow b now, by simpa using hget, by simp [hbump, softDeleteRow]⟩
        · rw [Bool.not_eq_true] at hq
          rw [hq] at hget
          exact ⟨b, by simpa using hget, by simp [hbump]⟩
  | moveOp id2 u2 np ni ev c now eid =>
    simp only [applyOp]
    cases hc : moveBookmark db id2 u2 np ni ev c now eid with
    | error msg =>
      refine ⟨b, hb, ?_⟩
      have hbf : opBumps id u db (.moveOp id2 u2 np ni ev c now eid) = false := by
        simp [opBumps, opSucceeds, hc]
      simp [hbf]
    | ok val =>
      obtain ⟨res, db'⟩ := val
      cases res with
      | conflict s =>
        obtain ⟨hdb, -, -⟩ := moveBookmark_conflict_inv hc
        refine ⟨b, ?_, ?_⟩
        · rw [hdb]; exact hb
        · have hbf : opBumps id u db (.moveOp id2 u2 np ni ev c now eid) = false := by
            simp [opBumps, opSucceeds, hc]
          simp [hbf]
      | ok b2 v =>
        obtain ⟨-, -, hbm, -, -, -⟩ := moveBookmark_ok_facts hc
        have hsucc : opSucceeds db (.moveOp id2 u2 np ni ev c now eid) = true := by
          simp [opSucceeds, hc]
        have hget := getBookmarkById_after_map (fun x => moveRow x np ni now)
          (fun x => rfl) (fun x => rfl) hbm hb
        by_cases hiu : id2 = id ∧ u2 = u
        · obtain ⟨h1, h2⟩ := hiu
          have hbump : opBumps id u db (.moveOp id2 u2 np ni ev c now eid) = true := by
            simp only [opBumps, decide_eq_true_eq]
            exact ⟨h1, h2, hsucc⟩
          have hq : (b.id == id2 && b.userId == u2) = true := by
            rw [Bool.and_eq_true, beq_iff_eq, beq_iff_eq, hpb.1, hpb.2]
            exact ⟨h1.symm, h2.symm⟩
          rw [hq] at hget
          exact ⟨moveRow b np ni now, by simpa using hget, by simp [hbump, moveRow]⟩
        · have hbump : opBumps id u db (.moveOp id2 u2 np ni ev c now eid) = false := by
            simp only [opBumps, decide_eq_false_iff_not]
            exact fun hcon => hiu ⟨hcon.1, hcon.2.1⟩
          have hnq : ¬ ((b.id == id2 && b.userId == u2) = true) := by
            rw [Bool.and_eq_true, beq_iff_eq, beq_iff_eq, hpb.1, hpb.2]
            exact fun hcon => hiu ⟨hcon.1.symm, hcon.2.symm⟩
          have hq : (b.id == id2 && b.userId == u2) = false := by
            cases hx : (b.id == id2 && b.userId == u2) with
            | false => rfl
            | true => exact absurd hx hnq
          rw [hq] at hget
          exact ⟨b, by simpa using hget, by simp [hbump]⟩

/-! ### Sequence-level lemmas -/

theorem applyOps_cons (db : DB) (op : Op) (rest : List Op) :
    applyOps db (op :: rest) = applyOps (applyOp db op) rest := rfl

theorem applyOps_hasLedger (u : String) :
    ∀ (ops : List Op) (db : DB), hasLedger (applyOps db ops) u = hasLedger db u := by
  intro ops
  induction ops with
  | nil => intro db; rfl
  | cons op rest ih =>
    intro db
    rw [applyOps_cons, ih, applyOp_hasLedger]

theorem succCount_cons (u : String) (db : DB) (op : Op) (rest : List Op) :
    succCount u db (op :: rest)
      = (if op.user = u ∧ opSucceeds db op then 1 else 0)
        + succCount u (applyOp db op) rest := rfl

theorem bumpCount_cons (id u : String) (db : DB) (op : Op) (rest : List Op) :
    bumpCount id u db (op :: rest)
      = (if opBumps id u db op then 1 else 0) + bumpCount id u (applyOp db op) rest := rfl

theorem lastUserEventVersion_eq (u : String) (db : DB) :
    lastUserEventVersion u db
      = (eventsFor u db).getLast?.map (fun e => e.syncVersion) := rfl

theorem applyOps_ledger (u : String) :
    ∀ (ops : List Op) (db : DB), hasLedger db u = true →
      getSyncVersion (applyOps db ops) u
        = getSyncVersion db u + (succCount u db ops : Int) := by
  intro ops
  induction ops with
  | nil => intro db hL; simp [applyOps, succCount]
  | cons op rest ih =>
    intro db hL
    have hL' : hasLedger (applyOp db op) u = true := by
      rw [applyOp_hasLedger]; exact hL
    rw [applyOps_cons, ih (applyOp db op) hL', succCount_cons]
    by_cases hu : op.user = u
    · cases hs : opSucceeds db op with
      | true =>
        have hLop : hasLedger db op.user = true := by rw [hu]; exact hL
        have hstep := applyOp_ledger_succ hs hLop
        rw [hu] at hstep
        rw [hstep]
        simp only [hu, hs, and_self, if_true, true_and]
        push_cast
        ring
      | false =>
        rw [applyOp_of_fail hs]
        simp [hs]
    · have hstep := applyOp_ledger_other db op (fun hc => hu hc.symm)
      rw [hstep]
      simp [hu]

theorem applyOps_lastEvent (u : String) :
    ∀ (ops : List Op) (db : DB), hasLedger db u = true →
      (lastUserEventVersion u db = some (getSyncVersion db u) ∨ eventsFor u db = []) →
      (lastUserEventVersion u (applyOps db ops)
          = some (getSyncVersion (applyOps db ops) u)
        ∨ eventsFor u (applyOps db ops) = []) := by
  intro ops
  induction ops with
  | nil => intro db hL hI; exact hI
  | cons op rest ih =>
    intro db hL hI
    rw [applyOps_cons]
    refine ih (applyOp db op) (by rw [applyOp_hasLedger]; exact hL) ?_
    by_cases hu : op.user = u
    · cases hs : opSucceeds db op with
      | true =>
        left
        obtain ⟨e, hse, heu, hev⟩ := applyOp_events_self hs
        rw [hu] at hse
        have hLop : hasLedger db op.user = true := by rw [hu]; exact hL
        have hstep := applyOp_ledger_succ hs hLop
        rw [hu] at hstep
        rw [lastUserEventVersion_eq, hse, List.getLast?_concat, hstep]
        show some e.syncVersion = some (getSyncVersion db u + 1)
        rw [hev, hu]
      | false =>
        rw [applyOp_of_fail hs]
        exact hI
    · have hev := applyOp_events_other db op (fun hc => hu hc.symm)
      have hle := applyOp_ledger_other db op (fun hc => hu hc.symm)
      have hlast : lastUserEventVersion u (applyOp db op) = lastUserEventVersion u db := by
        rw [lastUserEventVersion_eq, lastUserEventVersion_eq, hev]
      rw [hlast, hle, hev]
      exact hI

theorem applyOps_events_ne_nil (u : String) :
    ∀ (ops : List Op) (db : DB), eventsFor u db ≠ [] →
      eventsFor u (applyOps db ops) ≠ [] := by
  intro ops
  induction ops with
  | nil => intro db h; exact h
  | cons op rest ih =>
    intro db h
    rw [applyOps_cons]
    refine ih (applyOp db op) ?_
    cases hs : opSucceeds db op with
    | false => rw [applyOp_of_fail hs]; exact h
    | true =>
      by_cases hu : op.user = u
      · obtain ⟨e, hse, -, -⟩ := applyOp_events_self hs
        rw [hu] at hse
        rw [hse]
        simp
      · rw [applyOp_events_other db op (fun hc => hu hc.symm)]
        exact h

theorem applyOps_succ_ne_nil (u : String) :
    ∀ (ops : List Op) (db : DB), 0 < succCount u db ops →
      eventsFor u (applyOps db ops) ≠ [] := by
  intro ops
  induction ops with
  | nil => intro db h; simp [succCount] at h
  | cons op rest ih =>
    intro db h
    rw [applyOps_cons]
    rw [succCount_cons] at h
    by_cases hcond : op.user = u ∧ opSucceeds db op = true
    · refine applyOps_events_ne_nil u rest (applyOp db op) ?_
      obtain ⟨e, hse, -, -⟩ := applyOp_events_self hcond.2
      rw [hcond.1] at hse
      rw [hse]
      simp
    · refine ih (applyOp db op) ?_
      have hz : (if op.user = u ∧ opSucceeds db op then 1 else 0) = 0 := by
        simp only [ite_eq_right_iff]
        intro hcc
        exact absurd hcc hcond
      rw [hz, Nat.zero_add] at h
      exact h

theorem applyOps_bookmark_version (id u : String) :
    ∀ (ops : List Op) (db : DB) (b : Bookmark),
      getBookmarkById db id u = some b →
      ∃ b', getBookmarkById (applyOps db ops) id u = some b' ∧
        b'.syncVersion = b.syncVersion + (bumpCount id u db ops : Int) := by
  intro ops
  induction ops with
  | nil =>
    intro db b hb
    exact ⟨b, hb, by simp [bumpCount]⟩
  | cons op rest ih =>
    intro db b hb
    rw [applyOps_cons]
    obtain ⟨b1, hb1, hv1⟩ := applyOp_bookmark_version op hb
    obtain ⟨b', hb', hv'⟩ := ih (applyOp db op) b1 hb1
    refine ⟨b', hb', ?_⟩
    rw [hv', hv1, bumpCount_cons]
    by_cases hbump : opBumps id u db op = true
    · simp only [hbump, if_true]
      push_cast
      ring
    · rw [Bool.not_eq_true] at hbump
      simp only [hbump, Bool.false_eq_true, if_false]
      push_cast
      ring

/-! ### Sync-request, listing and event-query lemmas -/

theorem mem_getAllBookmarks (db : DB) (u : String) (b : Bookmark) :
    b ∈ getAllBookmarks db u
      ↔ b ∈ db.bookmarks ∧ b.userId = u ∧ b.isDeleted = false := by
  unfold getAllBookmarks
  rw [mem_sortByKey, List.mem_filter]
  simp [Bool.and_eq_true, beq_iff_eq]

theorem handleSyncRequest_full (db : DB) (u : String) (lsv : Int)
    (h : lsv = 0 ∨ getSyncVersion db u ≤ lsv) :
    handleSyncRequest db u lsv
      = .syncFull (getAllBookmarks db u) (getSyncVersion db u) := by
  unfold handleSyncRequest
  rw [if_pos h]

theorem handleSyncRequest_incremental (db : DB) (u : String) (lsv : Int)
    (h1 : ¬ lsv = 0) (h2 : lsv < getSyncVersion db u) :
    handleSyncRequest db u lsv
      = .syncIncremental (getSyncEventsSince db u lsv) (getSyncVersion db u) := by
  unfold handleSyncRequest
  rw [if_neg]
  rw [not_or]
  exact ⟨h1, not_le.2 h2⟩

theorem rowToSyncEvent_syncVersion (r : SyncEventRow) :
    (rowToSyncEvent r).syncVersion = r.syncVersion := rfl

theorem pairwise_lt_of_le_nodup :
    ∀ (l : List Int), l.Pairwise (· ≤ ·) → l.Nodup → l.Pairwise (· < ·) := by
  intro l
  induction l with
  | nil => intro _ _; exact List.Pairwise.nil
  | cons a t ih =>
    intro hle hnd
    rw [List.pairwise_cons] at hle ⊢
    rw [List.nodup_cons] at hnd
    refine ⟨?_, ih hle.2 hnd.2⟩
    intro b hb
    exact lt_of_le_of_ne (hle.1 b hb) (fun hc => hnd.1 (hc ▸ hb))

/-! ### REST / WebSocket conflict-path lemmas -/

theorem restPutBookmark_conflict {db : DB} {id u : String} (body : UpdateBody)
    (now : Nat) (eid : String) {s : Bookmark}
    (hb : getBookmarkById db id u = some s)
    (hv : ¬ s.syncVersion = body.expectedVersion.getD 0) :
    restPutBookmark db id u body now eid = (.successTrue, db) := by
  unfold restPutBookmark
  rw [updateBookmark_conflict_of body.patch "api" now eid hb hv]

theorem restPatchBookmark_conflict {db : DB} {id u : String} (body : UpdateBody)
    (now : Nat) (eid : String) {s : Bookmark}
    (hb : getBookmarkById db id u = some s)
    (hv : ¬ s.syncVersion = body.expectedVersion.getD 0) :
    restPatchBookmark db id u body now eid = (.successTrue, db) := by
  unfold restPatchBookmark
  rw [updateBookmark_conflict_of body.patch "api" now eid hb hv]

theorem restMoveBookmark_conflict {db : DB} {id u : String} (parentId : Option String)
    (sortOrder : Option Int) (now : Nat) (eid : String) {s : Bookmark}
    (hb : getBookmarkById db id u = some s) (hv : ¬ s.syncVersion = 0) :
    restMoveBookmark db id u parentId sortOrder now eid = (.successTrue, db) := by
  unfold restMoveBookmark
  rw [moveBookmark_conflict_of parentId (sortOrder.getD 0) "api" now eid hb hv]

theorem restDeleteBookmark_conflict {db : DB} {id u : String} {ev : Int}
    (now : Nat) (eid : String) {s : Bookmark}
    (hb : getBookmarkById db id u = some s) (hv : ¬ s.syncVersion = ev) :
    restDeleteBookmark db id u ev now eid = (.successTrue, db) := by
  unfold restDeleteBookmark
  rw [deleteBookmark_conflict_of "api" now eid hb hv]

theorem restDeleteBookmark_notFound {db : DB} {id u : String} (ev : Int)
    (now : Nat) (eid : String) (hb : getBookmarkById db id u = none) :
    restDeleteBookmark db id u ev now eid = (.successTrue, db) := by
  unfold restDeleteBookmark
  rw [deleteBookmark_notFound_of ev "api" now eid hb]
  simp

theorem handleBookmarkUpdate_conflict {db : DB} {userId clientId requestId id : String}
    {data : BookmarkPatch} {ev : Int} {now : Nat} {eid : String} {s : Bookmark}
    (hb : getBookmarkById db id userId = some s) (hv : ¬ s.syncVersion = ev) :
    handleBookmarkUpdate db userId clientId requestId id data ev now eid
      = (.conflictMsg requestId id s (.patchData data), db) := by
  unfold handleBookmarkUpdate
  rw [updateBookmark_conflict_of data clientId now eid hb hv]

theorem handleBookmarkDelete_conflict {db : DB} {userId clientId requestId id : String}
    {ev : Int} {now : Nat} {eid : String} {s : Bookmark}
    (hb : getBookmarkById db id userId = some s) (hv : ¬ s.syncVersion = ev) :
    handleBookmarkDelete db userId clientId requestId id ev now eid
      = (.conflictMsg requestId id s .emptyData, db) := by
  unfold handleBookmarkDelete
  rw [deleteBookmark_conflict_of clientId now eid hb hv]

theorem handleBookmarkDelete_notFound {db : DB} {userId clientId requestId id : String}
    (ev : Int) (now : Nat) (eid : String)
    (hb : getBookmarkById db id userId = none) :
    handleBookmarkDelete db userId clientId requestId id ev now eid
      = (.errorMsg (some requestId) "SERVER_ERROR" "Bookmark not found", db) := by
  unfold handleBookmarkDelete
  rw [deleteBookmark_notFound_of ev clientId now eid hb]

theorem handleBookmarkMove_conflict {db : DB} {userId clientId requestId id : String}
    {newParentId : Option String} {newIndex : Int} {ev : Int} {now : Nat} {eid : String}
    {s : Bookmark}
    (hb : getBookmarkById db id userId = some s) (hv : ¬ s.syncVersion = ev) :
    handleBookmarkMove db userId clientId requestId id newParentId newIndex ev now eid
      = (.conflictMsg requestId id s (.moveData newParentId newIndex), db) := by
  simp only [handleBookmarkMove]
  rw [moveBookmark_conflict_of
    (newParentId.bind (fun sp => if sp = "" then none else some sp)) newIndex
    clientId now eid hb hv]

/-! ### Per-bookmark version floor invariant -/

theorem applyOp_versionsGeOne {db : DB} (op : Op)
    (h : ∀ b ∈ db.bookmarks, 1 ≤ b.syncVersion) :
    ∀ b ∈ (applyOp db op).bookmarks, 1 ≤ b.syncVersion := by
  cases hs : opSucceeds db op with
  | false => rw [applyOp_of_fail hs]; exact h
  | true =>
    cases op with
    | createOp u d c nid now eid =>
      simp only [applyOp]
      cases hc : createBookmark db u d c nid now eid with
      | error msg => exact h
      | ok val =>
        obtain ⟨⟨b2, v⟩, db'⟩ := val
        obtain ⟨-, -, hbm, -, -, -, -⟩ := createBookmark_ok_facts hc
        intro b hbmem
        rw [hbm] at hbmem
        rcases List.mem_append.1 hbmem with hmem | hmem
        · exact h b hmem
        · rw [List.mem_singleton] at hmem
          subst hmem
          exact le_refl 1
    | updateOp id u p ev c now eid =>
      simp only [applyOp]
      cases hc : updateBookmark db id u p ev c now eid with
      | error msg => exact h
      | ok val =>
        obtain ⟨res, db'⟩ := val
        cases res with
        | conflict s => rw [(updateBookmark_conflict_inv hc).1]; exact h
        | ok b2 v =>
          obtain ⟨-, -, hbm, -, -, -⟩ := updateBookmark_ok_facts hc
          intro b hbmem
          rw [hbm] at hbmem
          obtain ⟨x, hx, hxb⟩ := List.mem_map.1 hbmem
          subst hxb
          by_cases hq : (x.id == id && x.userId == u) = true
          · rw [if_pos hq]
            have := h x hx
            show 1 ≤ x.syncVersion + 1
            omega
          · rw [Bool.not_eq_true] at hq
            rw [hq]
            simp only [Bool.false_eq_true, if_false]
            exact h x hx
    | deleteOp id u ev c now eid =>
      simp only [applyOp]
      cases hc : deleteBookmark db id u ev c now eid with
      | error msg => exact h
      | ok val =>
        obtain ⟨res, db'⟩ := val
        cases res with
        | conflict s => rw [(deleteBookmark_conflict_inv hc).1]; exact h
        | ok v =>
          obtain ⟨-, -, hbm, -, -⟩ := deleteBookmark_ok_facts hc
          intro b hbmem
          rw [hbm] at hbmem
          obtain ⟨x, hx, hxb⟩ := List.mem_map.1 hbmem
          subst hxb
          by_cases hq : (x.id == id && x.userId == u) = true
          · rw [if_pos hq]
            exact h x hx
          · rw [Bool.not_eq_true] at hq
            rw [hq]
            simp only [Bool.false_eq_true, if_false]
            exact h x hx
    | moveOp id u np ni ev c now eid =>
      simp only [applyOp]
      cases hc : moveBookmark db id u np ni ev c now eid with
      | error msg => exact h
      | ok val =>
        obtain ⟨res, db'⟩ := val
        cases res with
        | conflict s => rw [(moveBookmark_conflict_inv hc).1]; exact h
        | ok b2 v =>
          obtain ⟨-, -, hbm, -, -, -⟩ := moveBookmark_ok_facts hc
          intro b hbmem
          rw [hbm] at hbmem
          obtain ⟨x, hx, hxb⟩ := List.mem_map.1 hbmem
          subst hxb
          by_cases hq : (x.id == id && x.userId == u) = true
          · rw [if_pos hq]
            have := h x hx
            show 1 ≤ x.syncVersion + 1
            omega
          · rw [Bool.not_eq_true] at hq
            rw [hq]
            simp only [Bool.false_eq_true, if_false]
            exact h x hx

/-! ### Claim theorems -/

/-- C1: for every authenticated WebSocket sync_request, letting V be the user's
ledger currentVersion: if the client's lastSyncVersion equals 0 or
lastSyncVersion >= V, the server responds with sync_full containing exactly the
user's non-deleted bookmarks and syncVersion = V; otherwise it responds with
sync_incremental containing the events of since(userId, lastSyncVersion) and
currentVersion = V. -/
theorem spec_C1 (db : DB) (u : String) (lsv : Int) :
    (lsv = 0 ∨ getSyncVersion db u ≤ lsv →
      handleSyncRequest db u lsv
        = .syncFull (getAllBookmarks db u) (getSyncVersion db u)) ∧
    (¬ lsv = 0 → lsv < getSyncVersion db u →
      handleSyncRequest db u lsv
        = .syncIncremental (getSyncEventsSince db u lsv) (getSyncVersion db u)) ∧
    (∀ b, b ∈ getAllBookmarks db u
      ↔ b ∈ db.bookmarks ∧ b.userId = u ∧ b.isDeleted = false) :=
  ⟨handleSyncRequest_full db u lsv,
   handleSyncRequest_incremental db u lsv,
   mem_getAllBookmarks db u⟩

theorem spec_C1_witness :
    handleSyncRequest dbW "u1" 0
      = .syncFull (getAllBookmarks dbW "u1") (getSyncVersion dbW "u1") ∧
    handleSyncRequest dbW "u1" 3
      = .syncIncremental (getSyncEventsSince dbW "u1" 3) (getSyncVersion dbW "u1") :=
  ⟨(spec_C1 dbW "u1" 0).1 (Or.inl rfl),
   (spec_C1 dbW "u1" 3).2.1 (by decide) (by decide)⟩

/-- C2 counterexample: with the ledger at 50, a sync_request with
lastSyncVersion = 50 takes the `lastSyncVersion >= currentVersion` branch of
handleSyncRequest and is answered with sync_full — not, as the claim states,
with sync_incremental carrying an empty events list. -/
theorem spec_C2_counterexample :
    getSyncVersion dbC2 "u1" = 50 ∧
    handleSyncRequest dbC2 "u1" 50 = ServerMsg.syncFull [] 50 ∧
    handleSyncRequest dbC2 "u1" 50 ≠ ServerMsg.syncIncremental [] 50 := by
  decide

/-- C2 (amended): with a user's ledger at 50 (all of the user's recorded events
stamped ≤ 50, and at most 1000 of them past the cursor): lastSyncVersion = 0 is
answered with sync_full; lastSyncVersion = 50 is also answered with sync_full
(the >= branch), not sync_incremental; lastSyncVersion = 10 is answered with
sync_incremental carrying exactly the events whose syncVersion lies in (10, 50],
in ascending syncVersion order, and currentVersion = 50. -/
theorem spec_C2_amended (db : DB) (u : String)
    (h50 : getSyncVersion db u = 50)
    (hbound : ∀ e ∈ db.syncEvents, e.userId = u → e.syncVersion ≤ 50)
    (hlen : (db.syncEvents.filter
      (fun e => e.userId == u && (10 : Int) < e.syncVersion)).length ≤ 1000) :
    handleSyncRequest db u 0 = .syncFull (getAllBookmarks db u) 50 ∧
    handleSyncRequest db u 50 = .syncFull (getAllBookmarks db u) 50 ∧
    handleSyncRequest db u 10
      = .syncIncremental
          ((sortByKey (fun e => e.syncVersion)
            (db.syncEvents.filter
              (fun e => e.userId == u && (10 : Int) < e.syncVersion
                && e.syncVersion ≤ 50))).map rowToSyncEvent) 50 := by
  refine ⟨?_, ?_, ?_⟩
  · rw [handleSyncRequest_full db u 0 (Or.inl rfl), h50]
  · rw [handleSyncRequest_full db u 50 (Or.inr (le_of_eq h50)), h50]
  · rw [handleSyncRequest_incremental db u 10 (by norm_num) (by rw [h50]; norm_num), h50]
    unfold getSyncEventsSince
    have hcong : db.syncEvents.filter
        (fun e => e.userId == u && decide ((10 : Int) < e.syncVersion))
        = db.syncEvents.filter
            (fun e => e.userId == u && decide ((10 : Int) < e.syncVersion)
              && decide (e.syncVersion ≤ 50)) := by
      refine List.filter_congr ?_
      intro e he
      by_cases h1 : (e.userId == u) = true
      · by_cases h2 : decide ((10 : Int) < e.syncVersion) = true
        · have h3 : e.syncVersion ≤ 50 := hbound e he (by simpa using h1)
          simp [h1, h2, h3]
        · rw [Bool.not_eq_true] at h2
          simp [h2]
      · rw [Bool.not_eq_true] at h1
        simp [h1]
    rw [hcong]
    have hlen2 : (sortByKey (fun e => e.syncVersion)
        (db.syncEvents.filter
          (fun e => e.userId == u && decide ((10 : Int) < e.syncVersion)
            && decide (e.syncVersion ≤ 50)))).length ≤ 1000 := by
      rw [length_sortByKey, ← hcong]
      exact hlen
    rw [List.take_of_length_le hlen2]

theorem spec_C2_amended_witness :
    handleSyncRequest dbC2 "u1" 0 = .syncFull (getAllBookmarks dbC2 "u1") 50 ∧
    handleSyncRequest dbC2 "u1" 50 = .syncFull (getAllBookmarks dbC2 "u1") 50 ∧
    handleSyncRequest dbC2 "u1" 10
      = .syncIncremental
          ((sortByKey (fun e => e.syncVersion)
            (dbC2.syncEvents.filter
              (fun e => e.userId == "u1" && (10 : Int) < e.syncVersion
                && e.syncVersion ≤ 50))).map rowToSyncEvent) 50 :=
  spec_C2_amended dbC2 "u1" (by decide) (by decide) (by decide)

/-- C3: every successful create/update/soft-delete/move increments the user's
ledger by exactly 1, appends exactly one SyncEvent stamped with the new ledger
value, and returns that value as the operation's syncVersion; hence from a
fresh (or just-cleared) state, currentVersion equals the number of successful
mutations and equals the syncVersion of the most recent SyncEvent. -/
theorem spec_C3 :
    (∀ (db : DB) (op : Op), hasLedger db op.user = true → opSucceeds db op = true →
      getSyncVersion (applyOp db op) op.user = getSyncVersion db op.user + 1 ∧
      (∃ e : SyncEventRow, (applyOp db op).syncEvents = db.syncEvents ++ [e] ∧
        e.userId = op.user ∧ e.syncVersion = getSyncVersion db op.user + 1) ∧
      opResultSyncVersion db op = some (getSyncVersion db op.user + 1)) ∧
    (∀ (u : String) (db : DB) (ops : List Op), hasLedger db u = true →
      getSyncVersion db u = 0 → eventsFor u db = [] →
      getSyncVersion (applyOps db ops) u = (succCount u db ops : Int) ∧
      (0 < succCount u db ops →
        lastUserEventVersion u (applyOps db ops)
          = some (getSyncVersion (applyOps db ops) u))) := by
  constructor
  · intro db op hL hs
    obtain ⟨hev, hsv, hres⟩ := applyOp_success_effect hs
    exact ⟨getSyncVersion_of_set hsv hL, hev, hres⟩
  · intro u db ops hL h0 hev
    have hled := applyOps_ledger u ops db hL
    rw [h0, zero_add] at hled
    refine ⟨hled, ?_⟩
    intro hpos
    rcases applyOps_lastEvent u ops db hL (Or.inr hev) with hlast | hempty
    · exact hlast
    · exact absurd hempty (applyOps_succ_ne_nil u ops db hpos)

theorem spec_C3_witness :
    (getSyncVersion (applyOp dbZero wCreate) wCreate.user
        = getSyncVersion dbZero wCreate.user + 1 ∧
      (∃ e : SyncEventRow,
        (applyOp dbZero wCreate).syncEvents = dbZero.syncEvents ++ [e] ∧
        e.userId = wCreate.user ∧
        e.syncVersion = getSyncVersion dbZero wCreate.user + 1) ∧
      opResultSyncVersion dbZero wCreate
        = some (getSyncVersion dbZero wCreate.user + 1)) ∧
    getSyncVersion (applyOps dbZero wOps) "u1" = (succCount "u1" dbZero wOps : Int) ∧
    lastUserEventVersion "u1" (applyOps dbZero wOps)
      = some (getSyncVersion (applyOps dbZero wOps) "u1") ∧
    succCount "u1" dbZero wOps = 2 := by
  have h1 := (spec_C3).1 dbZero wCreate (by decide) (by decide)
  have h2 := (spec_C3).2 "u1" dbZero wOps (by decide) (by decide) (by decide)
  exact ⟨h1, h2.1, h2.2 (by decide), by decide⟩

/-- C4 counterexample: the claim says a successful soft-delete increments the
stored per-bookmark syncVersion by exactly one, so after create (version 1) and
one successful delete it should be 2; in the code the soft-delete UPDATE does
not touch sync_version, and the stored value stays 1. -/
theorem spec_C4_counterexample :
    opSucceeds dbAfterCreate wDelete = true ∧
    (getBookmarkById (applyOp dbAfterCreate wDelete) "b1" "u1").map
        (fun b => b.syncVersion) = some 1 ∧
    ¬ (getBookmarkById (applyOp dbAfterCreate wDelete) "b1" "u1").map
        (fun b => b.syncVersion) = some 2 := by
  decide

/-- C4 (amended): the stored per-bookmark syncVersion equals 1 plus the number
of successful update and move operations applied to that bookmark: it is 1 at
creation, each successful update and move increments it by exactly one, while
soft-delete and calls that return Conflict leave it unchanged. -/
theorem spec_C4_amended :
    (∀ (db : DB) (u : String) (d : BookmarkCreateData) (c nid : String) (now : Nat)
        (eid : String) (b : Bookmark) (v : Int) (db' : DB),
      createBookmark db u d c nid now eid = .ok ((b, v), db') →
      b.syncVersion = 1 ∧
      (getBookmarkById db' nid u).map (fun x => x.syncVersion) = some 1) ∧
    (∀ (id u : String) (ops : List Op) (db : DB) (b : Bookmark),
      getBookmarkById db id u = some b →
      ∃ b', getBookmarkById (applyOps db ops) id u = some b' ∧
        b'.syncVersion = b.syncVersion + (bumpCount id u db ops : Int)) := by
  constructor
  · intro db u d c nid now eid b v db' hc
    obtain ⟨-, -, -, -, -, hgb, hbrow⟩ := createBookmark_ok_facts hc
    subst hbrow
    refine ⟨rfl, ?_⟩
    rw [hgb]
    rfl
  · exact fun id u => applyOps_bookmark_version id u

theorem spec_C4_witness :
    ∃ b', getBookmarkById (applyOps dbAfterCreate [wDelete]) "b1" "u1" = some b' ∧
      b'.syncVersion = (createdRow "u1" wData "b1" 1).syncVersion
        + (bumpCount "b1" "u1" dbAfterCreate [wDelete] : Int) :=
  (spec_C4_amended).2 "b1" "u1" [wDelete] dbAfterCreate
    (createdRow "u1" wData "b1" 1) (by decide)

/-- C5: for an existing bookmark, update/move/soft-delete return a Conflict
result carrying the current server-side state exactly when the stored
syncVersion differs from the caller's expectedVersion, and a conflicting call
returns the database unchanged. -/
theorem spec_C5 (db : DB) (id u : String) (p : BookmarkPatch) (np : Option String)
    (ni ev : Int) (c : String) (now : Nat) (eid : String) (s : Bookmark)
    (hb : getBookmarkById db id u = some s) :
    ((¬ s.syncVersion = ev →
        updateBookmark db id u p ev c now eid = .ok (.conflict s, db)) ∧
      ∀ s2 db', updateBookmark db id u p ev c now eid = .ok (.conflict s2, db') →
        s2 = s ∧ db' = db ∧ ¬ s.syncVersion = ev) ∧
    ((¬ s.syncVersion = ev →
        deleteBookmark db id u ev c now eid = .ok (.conflict s, db)) ∧
      ∀ s2 db', deleteBookmark db id u ev c now eid = .ok (.conflict s2, db') →
        s2 = s ∧ db' = db ∧ ¬ s.syncVersion = ev) ∧
    ((¬ s.syncVersion = ev →
        moveBookmark db id u np ni ev c now eid = .ok (.conflict s, db)) ∧
      ∀ s2 db', moveBookmark db id u np ni ev c now eid = .ok (.conflict s2, db') →
        s2 = s ∧ db' = db ∧ ¬ s.syncVersion = ev) := by
  refine ⟨⟨fun hv => updateBookmark_conflict_of p c now eid hb hv, ?_⟩,
    ⟨fun hv => deleteBookmark_conflict_of c now eid hb hv, ?_⟩,
    ⟨fun hv => moveBookmark_conflict_of np ni c now eid hb hv, ?_⟩⟩
  · intro s2 db' hres
    obtain ⟨hdb, hgb, hv⟩ := updateBookmark_conflict_inv hres
    rw [hb] at hgb
    have hs : s = s2 := by injection hgb
    exact ⟨hs.symm, hdb, hs ▸ hv⟩
  · intro s2 db' hres
    obtain ⟨hdb, hgb, hv⟩ := deleteBookmark_conflict_inv hres
    rw [hb] at hgb
    have hs : s = s2 := by injection hgb
    exact ⟨hs.symm, hdb, hs ▸ hv⟩
  · intro s2 db' hres
    obtain ⟨hdb, hgb, hv⟩ := moveBookmark_conflict_inv hres
    rw [hb] at hgb
    have hs : s = s2 := by injection hgb
    exact ⟨hs.symm, hdb, hs ▸ hv⟩

theorem spec_C5_witness :
    updateBookmark dbW "b1" "u1" wPatch 5 "c1" 9 "e9" = .ok (.conflict wBookmark, dbW) ∧
    deleteBookmark dbW "b1" "u1" 5 "c1" 9 "e9" = .ok (.conflict wBookmark, dbW) ∧
    moveBookmark dbW "b1" "u1" none 4 5 "c1" 9 "e9" = .ok (.conflict wBookmark, dbW) := by
  have h := spec_C5 dbW "b1" "u1" wPatch none 4 5 "c1" 9 "e9" wBookmark (by decide)
  exact ⟨h.1.1 (by decide), h.2.1.1 (by decide), h.2.2.1 (by decide)⟩

/-- C6 counterexample: deleting a never-existing id over WebSocket yields a
SERVER_ERROR error message, not an ack; and re-deleting an already-soft-deleted
bookmark whose stored syncVersion matches expectedVersion succeeds again and
increments the ledger (2 → 3), so idempotent deletion does not leave the ledger
unchanged on every path. -/
theorem spec_C6_counterexample :
    handleBookmarkDelete dbAfterDelete "u1" "c1" "r1" "nope" 1 7 "e9"
      = (ServerMsg.errorMsg (some "r1") "SERVER_ERROR" "Bookmark not found",
          dbAfterDelete) ∧
    getSyncVersion dbAfterDelete "u1" = 2 ∧
    getSyncVersion (restDeleteBookmark dbAfterDelete "b1" "u1" 1 8 "e10").2 "u1" = 3 ∧
    (restDeleteBookmark dbAfterDelete "b1" "u1" 1 8 "e10").1
      = RestResponse.deleteOk 3 := by
  decide

/-- C6 (amended): deleting a never-existing id leaves the ledger unchanged, but
only the REST handler reports `{success:true}` — the WebSocket handler replies
with a SERVER_ERROR error message. Deleting an already-soft-deleted bookmark
leaves the ledger unchanged only when expectedVersion mismatches the stored
syncVersion (REST `{success:true}`, WS conflict); when it matches, the delete is
re-applied and the ledger is incremented. -/
theorem spec_C6_amended (db : DB) (id u cid rid : String) (ev : Int) (now : Nat)
    (eid : String) :
    (getBookmarkById db id u = none →
      restDeleteBookmark db id u ev now eid = (.successTrue, db) ∧
      handleBookmarkDelete db u cid rid id ev now eid
        = (.errorMsg (some rid) "SERVER_ERROR" "Bookmark not found", db)) ∧
    (∀ s, getBookmarkById db id u = some s → s.isDeleted = true →
      ¬ s.syncVersion = ev →
      restDeleteBookmark db id u ev now eid = (.successTrue, db) ∧
      handleBookmarkDelete db u cid rid id ev now eid
        = (.conflictMsg rid id s .emptyData, db)) ∧
    (∀ s, getBookmarkById db id u = some s → s.syncVersion = ev →
      hasLedger db u = true →
      getSyncVersion (restDeleteBookmark db id u ev now eid).2 u
        = getSyncVersion db u + 1) := by
  refine ⟨?_, ?_, ?_⟩
  · intro hb
    exact ⟨restDeleteBookmark_notFound ev now eid hb,
      handleBookmarkDelete_notFound ev now eid hb⟩
  · intro s hb hdel hv
    exact ⟨restDeleteBookmark_conflict now eid hb hv,
      handleBookmarkDelete_conflict hb hv⟩
  · intro s hb hv hL
    have hdel := deleteBookmark_ok_of "api" now eid hb hv
    unfold restDeleteBookmark
    rw [hdel]
    exact getSyncVersion_of_set rfl hL

theorem spec_C6_witness :
    (restDeleteBookmark dbW "nosuch" "u1" 0 9 "e9" = (.successTrue, dbW) ∧
      handleBookmarkDelete dbW "u1" "c1" "r1" "nosuch" 0 9 "e9"
        = (.errorMsg (some "r1") "SERVER_ERROR" "Bookmark not found", dbW)) ∧
    (restDeleteBookmark dbW "b2" "u1" 0 9 "e9" = (.successTrue, dbW) ∧
      handleBookmarkDelete dbW "u1" "c1" "r1" "b2" 0 9 "e9"
        = (.conflictMsg "r1" "b2" wDeletedBookmark .emptyData, dbW)) ∧
    getSyncVersion (restDeleteBookmark dbW "b2" "u1" 3 9 "e9").2 "u1"
      = getSyncVersion dbW "u1" + 1 := by
  have h1 := (spec_C6_amended dbW "nosuch" "u1" "c1" "r1" 0 9 "e9").1 (by decide)
  have h2 := (spec_C6_amended dbW "b2" "u1" "c1" "r1" 0 9 "e9").2.1
    wDeletedBookmark (by decide) (by decide) (by decide)
  have h3 := (spec_C6_amended dbW "b2" "u1" "c1" "r1" 3 9 "e9").2.2
    wDeletedBookmark (by decide) (by decide) (by decide)
  exact ⟨h1, h2, h3⟩

/-- C7: when the optimistic version check fails, the REST update (PUT and
PATCH), move, and delete handlers respond 200 `{success:true}` and leave the
database unchanged, while the WebSocket handlers for the same operations reply
with a conflict message carrying the authoritative server state (the conflicting
write is discarded in both cases). -/
theorem spec_C7 (db : DB) (id u cid rid : String) (body : UpdateBody)
    (p2 : BookmarkPatch) (np : Option String) (so : Option Int) (ni ev : Int)
    (now : Nat) (eid : String) (s : Bookmark)
    (hb : getBookmarkById db id u = some s) :
    (¬ s.syncVersion = body.expectedVersion.getD 0 →
      restPutBookmark db id u body now eid = (.successTrue, db) ∧
      restPatchBookmark db id u body now eid = (.successTrue, db)) ∧
    (¬ s.syncVersion = 0 →
      restMoveBookmark db id u np so now eid = (.successTrue, db)) ∧
    (¬ s.syncVersion = ev →
      restDeleteBookmark db id u ev now eid = (.successTrue, db) ∧
      handleBookmarkUpdate db u cid rid id p2 ev now eid
        = (.conflictMsg rid id s (.patchData p2), db) ∧
      handleBookmarkDelete db u cid rid id ev now eid
        = (.conflictMsg rid id s .emptyData, db) ∧
      handleBookmarkMove db u cid rid id np ni ev now eid
        = (.conflictMsg rid id s (.moveData np ni), db)) := by
  refine ⟨?_, ?_, ?_⟩
  · intro hv
    exact ⟨restPutBookmark_conflict body now eid hb hv,
      restPatchBookmark_conflict body now eid hb hv⟩
  · intro hv
    exact restMoveBookmark_conflict np so now eid hb hv
  · intro hv
    exact ⟨restDeleteBookmark_conflict now eid hb hv,
      handleBookmarkUpdate_conflict hb hv,
      handleBookmarkDelete_conflict hb hv,
      handleBookmarkMove_conflict hb hv⟩

theorem spec_C7_witness :
    (restPutBookmark dbW "b1" "u1" { patch := wPatch, expectedVersion := some 9 } 9 "e9"
        = (.successTrue, dbW) ∧
      restPatchBookmark dbW "b1" "u1" { patch := wPatch, expectedVersion := some 9 } 9 "e9"
        = (.successTrue, dbW)) ∧
    restMoveBookmark dbW "b1" "u1" none (some 2) 9 "e9" = (.successTrue, dbW) ∧
    (restDeleteBookmark dbW "b1" "u1" 9 9 "e9" = (.successTrue, dbW) ∧
      handleBookmarkUpdate dbW "u1" "c1" "r1" "b1" wPatch 9 9 "e9"
        = (.conflictMsg "r1" "b1" wBookmark (.patchData wPatch), dbW) ∧
      handleBookmarkDelete dbW "u1" "c1" "r1" "b1" 9 9 "e9"
        = (.conflictMsg "r1" "b1" wBookmark .emptyData, dbW) ∧
      handleBookmarkMove dbW "u1" "c1" "r1" "b1" none 2 9 9 "e9"
        = (.conflictMsg "r1" "b1" wBookmark (.moveData none 2), dbW)) := by
  have h := spec_C7 dbW "b1" "u1" "c1" "r1" { patch := wPatch, expectedVersion := some 9 }
    wPatch none (some 2) 2 9 9 "e9" wBookmark (by decide)
  exact ⟨h.1 (by decide), h.2.1 (by decide), h.2.2 (by decide)⟩

/-- C8: getSyncEventsSince(userId, v) returns only that user's events, every
returned event has syncVersion > v, at most 1000 events are returned, they come
back in ascending syncVersion order, and — whenever the user's recorded event
versions are pairwise distinct, as the engine maintains — the order is strictly
increasing. -/
theorem spec_C8 (db : DB) (u : String) (v : Int) :
    (∀ e ∈ getSyncEventsSince db u v, v < e.syncVersion) ∧
    (getSyncEventsSince db u v).length ≤ 1000 ∧
    (∀ e ∈ getSyncEventsSince db u v,
      ∃ r ∈ db.syncEvents, r.userId = u ∧ rowToSyncEvent r = e) ∧
    (getSyncEventsSince db u v).Pairwise
      (fun a b => a.syncVersion ≤ b.syncVersion) ∧
    (((eventsFor u db).map (fun r => r.syncVersion)).Nodup →
      (getSyncEventsSince db u v).Pairwise
        (fun a b => a.syncVersion < b.syncVersion)) := by
  have hmem : ∀ e ∈ getSyncEventsSince db u v,
      ∃ r, r ∈ db.syncEvents ∧ r.userId = u ∧ v < r.syncVersion ∧
        rowToSyncEvent r = e := by
    intro e he
    unfold getSyncEventsSince at he
    obtain ⟨r, hr, hre⟩ := List.mem_map.1 he
    have hr2 : r ∈ sortByKey (fun x => x.syncVersion)
        (db.syncEvents.filter
          (fun x => x.userId == u && decide (v < x.syncVersion))) :=
      List.take_subset _ _ hr
    rw [mem_sortByKey] at hr2
    obtain ⟨hrmem, hrpred⟩ := List.mem_filter.1 hr2
    rw [Bool.and_eq_true, beq_iff_eq, decide_eq_true_eq] at hrpred
    exact ⟨r, hrmem, hrpred.1, hrpred.2, hre⟩
  have htk : ((sortByKey (fun x : SyncEventRow => x.syncVersion)
      (db.syncEvents.filter
        (fun x => x.userId == u && decide (v < x.syncVersion)))).take 1000).Pairwise
      (fun a b => a.syncVersion ≤ b.syncVersion) :=
    List.Pairwise.sublist (List.take_sublist _ _) (pairwise_sortByKey _ _)
  refine ⟨?_, ?_, ?_, ?_, ?_⟩
  · intro e he
    obtain ⟨r, -, -, hlt, hre⟩ := hmem e he
    rw [← hre, rowToSyncEvent_syncVersion]
    exact hlt
  · unfold getSyncEventsSince
    rw [List.length_map]
    exact List.length_take_le 1000 _
  · intro e he
    obtain ⟨r, hrmem, hru, -, hre⟩ := hmem e he
    exact ⟨r, hrmem, hru, hre⟩
  · unfold getSyncEventsSince
    exact List.pairwise_map.2 htk
  · intro hnodup
    unfold getSyncEventsSince
    refine List.pairwise_map.2 ?_
    have hfilter : db.syncEvents.filter
        (fun x => x.userId == u && decide (v < x.syncVersion))
        = (eventsFor u db).filter (fun x => decide (v < x.syncVersion)) := by
      unfold eventsFor
      rw [List.filter_filter]
      exact List.filter_congr (fun x _ => Bool.and_comm _ _)
    have hnodup2 : ((db.syncEvents.filter
        (fun x => x.userId == u && decide (v < x.syncVersion))).map
          (fun r => r.syncVersion)).Nodup := by
      rw [hfilter]
      exact List.Nodup.sublist ((List.filter_sublist _).map _) hnodup
    have hnodup3 : (((sortByKey (fun x : SyncEventRow => x.syncVersion)
        (db.syncEvents.filter
          (fun x => x.userId == u && decide (v < x.syncVersion)))).take 1000).map
            (fun r => r.syncVersion)).Nodup := by
      have hperm := (sortByKey_perm (fun x : SyncEventRow => x.syncVersion)
        (db.syncEvents.filter
          (fun x => x.userId == u && decide (v < x.syncVersion)))).map
          (fun r => r.syncVersion)
      have hsorted : ((sortByKey (fun x : SyncEventRow => x.syncVersion)
          (db.syncEvents.filter
            (fun x => x.userId == u && decide (v < x.syncVersion)))).map
              (fun r => r.syncVersion)).Nodup :=
        (hperm.nodup_iff).2 hnodup2
      exact List.Nodup.sublist ((List.take_sublist _ _).map _) hsorted
    have hle : (((sortByKey (fun x : SyncEventRow => x.syncVersion)
        (db.syncEvents.filter
          (fun x => x.userId == u && decide (v < x.syncVersion)))).take 1000).map
            (fun r => r.syncVersion)).Pairwise (· ≤ ·) :=
      List.pairwise_map.2 htk
    have hlt := pairwise_lt_of_le_nodup _ hle hnodup3
    exact List.pairwise_map.1 hlt

theorem spec_C8_witness :
    10 < (rowToSyncEvent (wEv "e2" 20)).syncVersion ∧
    (getSyncEventsSince dbC2 "u1" 10).length ≤ 1000 ∧
    (getSyncEventsSince dbC2 "u1" 10).Pairwise
      (fun a b => a.syncVersion < b.syncVersion) := by
  have h := spec_C8 dbC2 "u1" 10
  exact ⟨h.1 (rowToSyncEvent (wEv "e2" 20)) (by decide), h.2.1,
    h.2.2.2.2 (by decide)⟩

/-- C9: every reachable bookmark row keeps syncVersion ≥ 1 (1 at creation,
never decremented), so the REST move handler — which hardcodes expectedVersion
to 0 — always takes the conflict branch on an existing bookmark: it responds
`{success:true}` and leaves the entire database (bookmark fields, ledger, event
log) unchanged; the same holds for REST PUT/PATCH updates that omit
expectedVersion (defaulted to 0). -/
theorem spec_C9 :
    (∀ (db : DB) (op : Op), (∀ b ∈ db.bookmarks, 1 ≤ b.syncVersion) →
      ∀ b ∈ (applyOp db op).bookmarks, 1 ≤ b.syncVersion) ∧
    (∀ (db : DB) (id u : String) (np : Option String) (so : Option Int)
        (now : Nat) (eid : String) (s : Bookmark),
      getBookmarkById db id u = some s → 1 ≤ s.syncVersion →
      restMoveBookmark db id u np so now eid = (.successTrue, db)) ∧
    (∀ (db : DB) (id u : String) (p : BookmarkPatch) (now : Nat) (eid : String)
        (s : Bookmark),
      getBookmarkById db id u = some s → 1 ≤ s.syncVersion →
      restPutBookmark db id u { patch := p, expectedVersion := none } now eid
          = (.successTrue, db) ∧
      restPatchBookmark db id u { patch := p, expectedVersion := none } now eid
          = (.successTrue, db)) := by
  refine ⟨fun db op => applyOp_versionsGeOne op, ?_, ?_⟩
  · intro db id u np so now eid s hb h1
    exact restMoveBookmark_conflict np so now eid hb (by omega)
  · intro db id u p now eid s hb h1
    constructor
    · exact restPutBookmark_conflict _ now eid hb (show ¬ s.syncVersion = 0 by omega)
    · exact restPatchBookmark_conflict _ now eid hb (show ¬ s.syncVersion = 0 by omega)

theorem spec_C9_witness :
    (∀ b ∈ (applyOp dbW wCreate).bookmarks, 1 ≤ b.syncVersion) ∧
    restMoveBookmark dbW "b1" "u1" (some "b2") (some 7) 9 "e9" = (.successTrue, dbW) ∧
    restPutBookmark dbW "b1" "u1" { patch := wPatch, expectedVersion := none } 9 "e9"
      = (.successTrue, dbW) ∧
    restPatchBookmark dbW "b1" "u1" { patch := wPatch, expectedVersion := none } 9 "e9"
      = (.successTrue, dbW) := by
  have h1 := (spec_C9).1 dbW wCreate (by decide)
  have h2 := (spec_C9).2.1 dbW "b1" "u1" (some "b2") (some 7) 9 "e9" wBookmark
    (by decide) (by decide)
  have h3 := (spec_C9).2.2 dbW "b1" "u1" wPatch 9 "e9" wBookmark (by decide) (by decide)
  exact ⟨h1, h2, h3.1, h3.2⟩

/-- C10: the single-bookmark lookup does not exclude soft-deleted rows: for a
soft-deleted bookmark (with the (id, userId) key unique, as the primary key
guarantees), getBookmarkById returns it with isDeleted = true, GET
/api/bookmarks/:id returns the row rather than 404, update/move/delete with the
matching expectedVersion succeed on it, while getAllBookmarks excludes it. -/
theorem spec_C10 (db : DB) (p : BookmarkPatch) (np : Option String) (ni : Int)
    (c : String) (now : Nat) (eid : String) (b : Bookmark)
    (hmem : b ∈ db.bookmarks) (hdel : b.isDeleted = true)
    (huniq : ∀ b2 ∈ db.bookmarks, b2.id = b.id → b2.userId = b.userId → b2 = b) :
    getBookmarkById db b.id b.userId = some b ∧
    restGetBookmark db b.id b.userId = .bookmarkJson b ∧
    b ∉ getAllBookmarks db b.userId ∧
    (∃ db', updateBookmark db b.id b.userId p b.syncVersion c now eid
      = .ok (.ok (applyPatch b p now) (getSyncVersion db b.userId + 1), db')) ∧
    (∃ db', deleteBookmark db b.id b.userId b.syncVersion c now eid
      = .ok (.ok (getSyncVersion db b.userId + 1), db')) ∧
    (∃ db', moveBookmark db b.id b.userId np ni b.syncVersion c now eid
      = .ok (.ok (moveRow b np ni now) (getSyncVersion db b.userId + 1), db')) := by
  have hbid : getBookmarkById db b.id b.userId = some b := by
    rw [getBookmarkById_eq_find?]
    cases hf : db.bookmarks.find? (fun x => x.id == b.id && x.userId == b.userId) with
    | none =>
      exfalso
      have hall := List.find?_eq_none.1 hf b hmem
      simp at hall
    | some x =>
      have hxmem := List.mem_of_find?_eq_some hf
      have hxpred :=
        List.find?_some (p := fun y : Bookmark => y.id == b.id && y.userId == b.userId) hf
      rw [Bool.and_eq_true, beq_iff_eq, beq_iff_eq] at hxpred
      rw [huniq x hxmem hxpred.1 hxpred.2]
  refine ⟨hbid, ?_, ?_, ?_, ?_, ?_⟩
  · unfold restGetBookmark
    rw [hbid]
  · intro hcon
    have := (mem_getAllBookmarks db b.userId b).1 hcon
    rw [hdel] at this
    exact absurd this.2.2 (by simp)
  · exact ⟨_, updateBookmark_ok_of p c now eid hbid rfl⟩
  · exact ⟨_, deleteBookmark_ok_of c now eid hbid rfl⟩
  · exact ⟨_, moveBookmark_ok_of np ni c now eid hbid rfl⟩

theorem spec_C10_witness :
    getBookmarkById dbW wDeletedBookmark.id wDeletedBookmark.userId
      = some wDeletedBookmark ∧
    restGetBookmark dbW wDeletedBookmark.id wDeletedBookmark.userId
      = .bookmarkJson wDeletedBookmark ∧
    wDeletedBookmark ∉ getAllBookmarks dbW wDeletedBookmark.userId ∧
    (∃ db', updateBookmark dbW wDeletedBookmark.id wDeletedBookmark.userId wPatch
        wDeletedBookmark.syncVersion "c1" 9 "e9"
      = .ok (.ok (applyPatch wDeletedBookmark wPatch 9)
          (getSyncVersion dbW wDeletedBookmark.userId + 1), db')) ∧
    (∃ db', deleteBookmark dbW wDeletedBookmark.id wDeletedBookmark.userId
        wDeletedBookmark.syncVersion "c1" 9 "e9"
      = .ok (.ok (getSyncVersion dbW wDeletedBookmark.userId + 1), db')) ∧
    (∃ db', moveBookmark dbW wDeletedBookmark.id wDeletedBookmark.userId none 4
        wDeletedBookmark.syncVersion "c1" 9 "e9"
      = .ok (.ok (moveRow wDeletedBookmark none 4 9)
          (getSyncVersion dbW wDeletedBookmark.userId + 1), db')) :=
  spec_C10 dbW wPatch none 4 "c1" 9 "e9" wDeletedBookmark
    (by decide) (by decide) (by decide)

end BookmarkSync
